import Mathlib

/-!
# Race game: track geometry, kinematics, lap tracking and the vehicle registry

A shallow embedding of `src/game.js` (the driving client) and `src/server.js`
(the relaying coordinator).

JavaScript numbers are interpreted as exact numbers of an ordered field `α`
(the theorems take `α = ℝ`); rounding of IEEE doubles is not modelled.  The
functions of the JavaScript `Math` object that the program calls are collected
in a record `JsMath α`, so that every definition of the program is an ordinary
computable function of its inputs and of that record.  `realMath` is the exact
interpretation of `Math` over the reals.
-/

namespace RaceGame

/-! ## The JavaScript primitives the program uses -/

/-- The members of the JavaScript `Math` object called by the program
(`Math.floor` is `Int.floor`, see `computeProgress`). -/
structure JsMath (α : Type) where
  PI : α
  sqrt : α → α
  cos : α → α
  sin : α → α
  atan2 : α → α → α

/-- Exact interpretation of `Math` over the reals: `Math.atan2 y x` is the
argument of the complex number `x + y i`, a value of `(-π, π]` (and `0` at the
origin, like `Math.atan2(0, 0)`).  The reals have a single zero, so the value
`-π` that `Math.atan2(-0, x)` takes for `x < 0` does not occur. -/
noncomputable def realMath : JsMath ℝ where
  PI := Real.pi
  sqrt := Real.sqrt
  cos := Real.cos
  sin := Real.sin
  atan2 := fun y x => Complex.arg ⟨x, y⟩

section Program

variable {α : Type} [LinearOrderedField α] [FloorRing α]

/-- Rounding toward zero, the quotient used by the JavaScript `%` operator. -/
def jsTrunc (q : α) : ℤ :=
  if 0 ≤ q then ⌊q⌋ else ⌈q⌉

/-- The JavaScript remainder `a % b` on numbers: the truncated remainder,
whose sign follows the dividend. -/
def jsMod (a b : α) : α :=
  a - b * (jsTrunc (a / b) : α)

/-! ## `src/game.js`: constants -/

/-- `const OUTER_R = 260;` -/
def OUTER_R : α := 260

/-- `const INNER_R = 120;` -/
def INNER_R : α := 120

/-- `const START_ANGLE = -Math.PI / 2; // top` -/
def START_ANGLE (M : JsMath α) : α := -M.PI / 2

/-- `const TOTAL_LAPS = 3;` -/
def TOTAL_LAPS : ℕ := 3

/-- `const SEND_INTERVAL = 50; // ms` -/
def SEND_INTERVAL : ℤ := 50

/-- The canvas of the page, whose size fixes the track centre:
`CENTER_X = WIDTH / 2`, `CENTER_Y = HEIGHT / 2`.  The page itself is not part
of the sources, so the size is a parameter of the program. -/
structure Canvas (α : Type) where
  width : α
  height : α

/-- `const CENTER_X = WIDTH / 2;` -/
def CENTER_X (cv : Canvas α) : α := cv.width / 2

/-- `const CENTER_Y = HEIGHT / 2;` -/
def CENTER_Y (cv : Canvas α) : α := cv.height / 2

/-! ## `src/game.js`: track geometry -/

/-- `function clampToTrack(x, y)`: clamp a point inside the annulus.
`dist || 0.0001` replaces a zero distance by `0.0001`. -/
def clampToTrack (M : JsMath α) (cv : Canvas α) (x y : α) : α × α :=
  let dx := x - CENTER_X cv
  let dy := y - CENTER_Y cv
  let dist := M.sqrt (dx * dx + dy * dy)
  if dist > OUTER_R - 10 then
    let factor := (OUTER_R - 10) / dist
    (CENTER_X cv + dx * factor, CENTER_Y cv + dy * factor)
  else if dist < INNER_R + 10 then
    let factor := (INNER_R + 10) / (if dist ≠ 0 then dist else 0.0001)
    (CENTER_X cv + dx * factor, CENTER_Y cv + dy * factor)
  else
    (x, y)

/-- `function normAngle(a)`: normalized angle in `[0, 2π)`. -/
def normAngle (M : JsMath α) (a : α) : α :=
  let v := jsMod a (M.PI * 2)
  if v < 0 then v + M.PI * 2 else v

/-! ## `src/game.js`: client state -/

/-- A vehicle as the client holds it in `myCar` and in `players`: the fields of
the object created by the server on connection. -/
structure Car (α : Type) where
  id : String
  name : String
  x : α
  y : α
  angle : α
  speed : α
  color : String
  laps : ℕ
  winner : Bool
  lastAngle : α

/-- The object passed to `socket.emit("move", ...)`. -/
structure MoveMsg (α : Type) where
  x : α
  y : α
  angle : α
  speed : α
  laps : ℕ
  winner : Bool
  name : String
  lastAngle : α

/-- The entries of `keys` that `gameLoop` reads: `keys["a"]`, `keys["d"]`,
`keys["w"]`, `keys["s"]`. -/
structure Keys where
  a : Bool
  d : Bool
  w : Bool
  s : Bool

/-- The mutable globals of the client that `gameLoop` reads and writes:
`myCar`, `keys`, `boostClicks`, `lastSend` and the text of `nameInput`. -/
structure Client (α : Type) where
  myCar : Option (Car α)
  keys : Keys
  boostClicks : α
  lastSend : ℤ
  nameInput : String

/-- The `mousedown` listener: `boostClicks++`. -/
def onMouseDown (c : Client α) : Client α :=
  { c with boostClicks := c.boostClicks + 1 }

/-! ## `src/game.js`: progress score -/

/-- `function computeProgress(p)`: `p.laps || 0` is `p.laps` for a number. -/
def computeProgress (M : JsMath α) (cv : Canvas α) (p : Car α) : ℤ :=
  let ang := normAngle M (M.atan2 (p.y - CENTER_Y cv) (p.x - CENTER_X cv))
  let ref := normAngle M (START_ANGLE M)
  let relative := ang - ref
  let relative := if relative < 0 then relative + M.PI * 2 else relative
  ((if p.laps ≠ 0 then p.laps else 0 : ℕ) : ℤ) * 100000 + ⌊relative * 1000⌋

/-! ## `src/game.js`: throttled push -/

/-- `function sendMyStateIfNeeded(state)`, with `now = Date.now()` and the
global `lastSend` made explicit: the emitted message, if any, and the new
`lastSend`. -/
def sendMyStateIfNeeded (now lastSend : ℤ) (state : MoveMsg α) : Option (MoveMsg α) × ℤ :=
  if now - lastSend > SEND_INTERVAL then (some state, now) else (none, lastSend)

/-! ## `src/game.js`: main loop and physics -/

/-- The controls, friction and speed-clamp statements of `gameLoop`: the new
`myCar.angle` and `myCar.speed`. -/
def applyControls (keys : Keys) (boostClicks : α) (myCar : Car α) : α × α :=
  let turnSpeed : α := 0.06
  let accelBase : α := 0.12
  let maxSpeed : α := 6.2
  let boost : α := min boostClicks 12 * 0.22
  let angle := if keys.a then myCar.angle - turnSpeed else myCar.angle
  let angle := if keys.d then angle + turnSpeed else angle
  let speed := if keys.w then myCar.speed + (accelBase + boost) else myCar.speed
  let speed := if keys.s then speed - 0.35 else speed
  let speed := speed * 0.985
  let speed := if |speed| < 0.01 then 0 else speed
  let speed := if speed > maxSpeed then maxSpeed else speed
  let speed := if speed < -2 then -2 else speed
  (angle, speed)

/-- The test of the lap detection of `gameLoop`:
`prevAng > ref + 0.01 && currAng <= ref + 0.01`. -/
def lapCrossed (M : JsMath α) (prevAng currAng : α) : Bool :=
  let ref := normAngle M (START_ANGLE M)
  decide (prevAng > ref + 0.01) && decide (currAng ≤ ref + 0.01)

/-- The part of `gameLoop` guarded by `if (myCar)` up to the boost decay: the
new `myCar` and the new `boostClicks`.  `myCar.lastAngle || myCar.angle` takes
`myCar.angle` when `lastAngle` is `0`. -/
def driveCar (M : JsMath α) (cv : Canvas α) (keys : Keys) (boostClicks : α) (myCar : Car α) :
    Car α × α :=
  let ctl := applyControls keys boostClicks myCar
  let angle := ctl.1
  let speed := ctl.2
  -- apply movement
  let x := myCar.x + M.cos angle * speed
  let y := myCar.y + M.sin angle * speed
  -- clamp to track annulus
  let clamped := clampToTrack M cv x y
  let x := clamped.1
  let y := clamped.2
  -- lap detection
  let prevAng := normAngle M (if myCar.lastAngle ≠ 0 then myCar.lastAngle else angle)
  let currAng := normAngle M (M.atan2 (y - CENTER_Y cv) (x - CENTER_X cv))
  let crossed := lapCrossed M prevAng currAng
  let laps := if crossed then (if myCar.laps ≠ 0 then myCar.laps else 0) + 1 else myCar.laps
  let winner := if crossed && decide (laps ≥ TOTAL_LAPS) && !myCar.winner then true else myCar.winner
  -- decay boost slowly
  let boostClicks := if boostClicks > 0 then boostClicks - 0.35 else boostClicks
  ({ myCar with x := x, y := y, angle := angle, speed := speed, laps := laps, winner := winner,
                lastAngle := currAng }, boostClicks)

/-- `function gameLoop()`, without the rendering: one physics tick at time
`now = Date.now()`.  Returns the new globals and the `move` message emitted,
if any. -/
def gameLoop (M : JsMath α) (cv : Canvas α) (now : ℤ) (c : Client α) :
    Client α × Option (MoveMsg α) :=
  match c.myCar with
  | none => (c, none)
  | some myCar =>
    let r := driveCar M cv c.keys c.boostClicks myCar
    let car := r.1
    let sent := sendMyStateIfNeeded now c.lastSend
      { x := car.x, y := car.y, angle := car.angle, speed := car.speed, laps := car.laps,
        winner := car.winner, name := if c.nameInput ≠ "" then c.nameInput else car.name,
        lastAngle := car.lastAngle }
    ({ c with myCar := some car, boostClicks := r.2, lastSend := sent.2 }, sent.1)

/-- The globals after a run of ticks.  Each entry of the list gives, for one
tick, the value of `Date.now()`, the state of the keys at the tick and the
number of `mousedown` events since the previous tick. -/
def runTicks (M : JsMath α) (cv : Canvas α) : List (ℤ × Keys × ℕ) → Client α → Client α
  | [], c => c
  | (now, keys, clicks) :: rest, c =>
    runTicks M cv rest
      (gameLoop M cv now { c with keys := keys, boostClicks := c.boostClicks + clicks }).1

/-! ## `src/game.js`: the lap detection of `gameLoop` on its own -/

/-- The fields of `myCar` that the lap detection reads and writes. -/
structure LapState (α : Type) where
  laps : ℕ
  winner : Bool
  lastAngle : α

/-- The previous sample of the lap detection,
`normAngle(myCar.lastAngle || myCar.angle)`, for the heading `angle`. -/
def prevAngle (M : JsMath α) (angle lastAngle : α) : α :=
  normAngle M (if lastAngle ≠ 0 then lastAngle else angle)

/-- The lap-detection statements of `gameLoop`, from `const prevAng` to
`myCar.lastAngle = currAng`, for the heading `angle` and the normalized track
angle `currAng` of the new position. -/
def detectLap (M : JsMath α) (angle currAng : α) (s : LapState α) : LapState α :=
  let prevAng := prevAngle M angle s.lastAngle
  let crossed := lapCrossed M prevAng currAng
  let laps := if crossed then (if s.laps ≠ 0 then s.laps else 0) + 1 else s.laps
  let winner := if crossed && decide (laps ≥ TOTAL_LAPS) && !s.winner then true else s.winner
  { laps := laps, winner := winner, lastAngle := currAng }

/-- The lap detection over a run of ticks, each given by the heading and the
normalized track angle of the car after its move. -/
def detectLaps (M : JsMath α) : List (α × α) → LapState α → LapState α
  | [], s => s
  | (angle, currAng) :: rest, s => detectLaps M rest (detectLap M angle currAng s)

/-- The ticks `k + 1, ..., k + m` of a vehicle whose track angle advances by
the constant step `δ` from the angle `a` of tick `0`: tick `j` has the heading
`heading j` and the sample `normAngle(a + j δ)`. -/
def steadyTicks (M : JsMath α) (heading : ℕ → α) (a δ : α) : ℕ → ℕ → List (α × α)
  | _, 0 => []
  | k, m + 1 =>
    (heading (k + 1), normAngle M (a + ((k + 1 : ℕ) : α) * δ)) :: steadyTicks M heading a δ (k + 1) m

/-! ## `src/server.js`: values on the wire -/

/-- A JavaScript value as it arrives in a message or is stored in a vehicle
field.  `obj` stands for an object or array, given by its JSON text. -/
inductive JsVal (α : Type) where
  | undefined : JsVal α
  | null : JsVal α
  | bool (b : Bool) : JsVal α
  | num (v : α) : JsVal α
  | nan : JsVal α
  | str (s : String) : JsVal α
  | obj (json : String) : JsVal α
  deriving DecidableEq

/-- JavaScript truthiness: `undefined`, `null`, `false`, `0`, `NaN` and `""`
are falsy. -/
def JsVal.truthy : JsVal α → Bool
  | .undefined => false
  | .null => false
  | .bool b => b
  | .num v => decide (v ≠ 0)
  | .nan => false
  | .str s => decide (s ≠ "")
  | .obj _ => true

/-- The JavaScript operator `a || b`. -/
def JsVal.or (a b : JsVal α) : JsVal α :=
  if a.truthy then a else b

/-- A vehicle object of the server's `players`. -/
structure Vehicle (α : Type) where
  id : String
  name : JsVal α
  x : JsVal α
  y : JsVal α
  angle : JsVal α
  speed : JsVal α
  color : String
  laps : JsVal α
  winner : JsVal α
  lastAngle : JsVal α

/-- The properties of a `move` payload that the server reads; an absent
property reads as `undefined`. -/
structure MoveData (α : Type) where
  x : JsVal α
  y : JsVal α
  angle : JsVal α
  speed : JsVal α
  laps : JsVal α
  winner : JsVal α
  name : JsVal α
  lastAngle : JsVal α

/-- The object `players`: connection ids with their vehicles, in insertion
order, each id at most once. -/
abbrev Registry (α : Type) := List (String × Vehicle α)

/-- The read `players[id]`. -/
def Registry.get (players : Registry α) (id : String) : Option (Vehicle α) :=
  (players.find? (fun e => e.1 = id)).map (fun e => e.2)

/-- The write `players[id] = v`: replaces the value of an existing key in
place, appends a new key. -/
def Registry.put (players : Registry α) (id : String) (v : Vehicle α) : Registry α :=
  if (Registry.get players id).isSome then
    players.map (fun e => if e.1 = id then (id, v) else e)
  else
    players ++ [(id, v)]

/-- The statement `delete players[id]`. -/
def Registry.delete (players : Registry α) (id : String) : Registry α :=
  players.filter (fun e => e.1 ≠ id)

/-! ## `src/server.js`: handlers -/

/-- `Number.prototype.toString(16)` on an integer. -/
def toHex (n : ℤ) : String :=
  if n < 0 then "-" ++ String.mk (Nat.toDigits 16 n.natAbs) else String.mk (Nat.toDigits 16 n.natAbs)

/-- The vehicle created by the `connection` handler when `players` has
`spawnIndex` keys; `rnd` is the value of `Math.random()`. -/
def spawnVehicle (M : JsMath α) (spawnIndex : ℕ) (socketId : String) (rnd : α) : Vehicle α :=
  let startAngle : α := -M.PI / 2
  let angleOffset : α := jsMod ((spawnIndex : α) * 0.25) (M.PI * 2)
  let startRadius : α := 190
  let centerX : α := 400
  let centerY : α := 300
  let x := centerX + M.cos (startAngle + angleOffset) * startRadius
  let y := centerY + M.sin (startAngle + angleOffset) * startRadius
  { id := socketId
    name := .str ("Player" ++ toString (spawnIndex + 1))
    x := .num x
    y := .num y
    angle := .num (startAngle + angleOffset)
    speed := .num 0
    color := "#" ++ toHex ⌊rnd * 16777215⌋
    laps := .num 0
    winner := .bool false
    lastAngle := .num (startAngle + angleOffset) }

/-- The body of `io.on("connection", ...)` up to the registration of the
listeners: the new `players`, which is also the snapshot emitted. -/
def onConnection (M : JsMath α) (players : Registry α) (socketId : String) (rnd : α) :
    Registry α :=
  Registry.put players socketId (spawnVehicle M players.length socketId rnd)

/-- The listener `socket.on("move", ...)` of the socket `socketId`.  `data` is
`none` for a payload that is `null` or `undefined`, on which a property read
throws; every other payload is given by the properties read. -/
def onMove (players : Registry α) (socketId : String) (data : Option (MoveData α)) :
    Except String (Registry α) :=
  match Registry.get players socketId with
  | none => .ok players
  | some v =>
    match data with
    | none => .error "TypeError"
    | some d =>
      .ok (Registry.put players socketId
        { v with
          x := d.x
          y := d.y
          angle := d.angle
          speed := d.speed
          laps := d.laps
          winner := d.winner
          name := JsVal.or d.name v.name
          lastAngle := JsVal.or d.lastAngle v.lastAngle })

/-- The listener `socket.on("setName", ...)` for a string `n`:
`String(n).slice(0, 20)`.  `slice` counts UTF-16 code units and `take` counts
characters, which is the same for text of the Basic Multilingual Plane. -/
def onSetName (players : Registry α) (socketId : String) (n : String) : Registry α :=
  match Registry.get players socketId with
  | none => players
  | some v => Registry.put players socketId { v with name := .str (n.take 20) }

/-- The listener `socket.on("disconnect", ...)`. -/
def onDisconnect (players : Registry α) (socketId : String) : Registry α :=
  Registry.delete players socketId

/-- An event of the server: a connection (with the value of `Math.random()`),
a `move` message with an object payload, a `setName` message with a string, or
a disconnection. -/
inductive ServerEvent (α : Type) where
  | connection (socketId : String) (rnd : α) : ServerEvent α
  | move (socketId : String) (data : MoveData α) : ServerEvent α
  | setName (socketId : String) (n : String) : ServerEvent α
  | disconnect (socketId : String) : ServerEvent α

/-- The object `players` after the handler of one event has run. -/
def serverStep (M : JsMath α) (players : Registry α) : ServerEvent α → Registry α
  | .connection socketId rnd => onConnection M players socketId rnd
  | .move socketId data =>
    match onMove players socketId (some data) with
    | .ok players' => players'
    | .error _ => players
  | .setName socketId n => onSetName players socketId n
  | .disconnect socketId => onDisconnect players socketId

/-- The object `players` after a sequence of events. -/
def serverRun (M : JsMath α) : List (ServerEvent α) → Registry α → Registry α
  | [], players => players
  | e :: rest, players => serverRun M rest (serverStep M players e)

/-! ## Sample inputs -/

/-- No key is held down. -/
def noKeys : Keys := ⟨false, false, false, false⟩

/-- A car at rest on the track, `200` to the east of the centre (track angle
`0`), heading east, whose stored angular sample is `lastAngle`. -/
def carAtEast (cv : Canvas α) (lastAngle : α) : Car α :=
  { id := "a", name := "Player1", x := CENTER_X cv + 200, y := CENTER_Y cv, angle := 0,
    speed := 0, color := "#0", laps := 0, winner := false, lastAngle := lastAngle }

/-- A car about to pass the seam of the normalized track angle: `200` to the
east of the centre and `1` above it (track angle just below `2π`), heading
`π/2` (towards larger `y`) at a speed that friction brings to `1`; its stored
sample is the normalized track angle of its position. -/
def carBeforeSeam (M : JsMath α) (cv : Canvas α) : Car α :=
  { id := "a", name := "Player1", x := CENTER_X cv + 200, y := CENTER_Y cv - 1,
    angle := M.PI / 2, speed := 200 / 197, color := "#0", laps := 0, winner := false,
    lastAngle := normAngle M (M.atan2 (-1) 200) }

/-- The globals of a client that drives `car`, before any input. -/
def clientOf (car : Car α) : Client α :=
  { myCar := some car, keys := noKeys, boostClicks := 0, lastSend := 0, nameInput := "" }

/-- A vehicle as the connection handler stores it. -/
def sampleVehicle : Vehicle α :=
  { id := "b", name := .str "Player1", x := .num 590, y := .num 300, angle := .num 0,
    speed := .num 0, color := "#0", laps := .num 2, winner := .bool false, lastAngle := .num 1 }

/-- A `move` payload without any of the properties the server reads, such as
`{}`. -/
def emptyPayload : MoveData α :=
  { x := .undefined, y := .undefined, angle := .undefined, speed := .undefined,
    laps := .undefined, winner := .undefined, name := .undefined, lastAngle := .undefined }

/-- A state as `gameLoop` passes it to `sendMyStateIfNeeded`. -/
def sampleMsg : MoveMsg α :=
  { x := 590, y := 300, angle := 0, speed := 0, laps := 0, winner := false, name := "Player1",
    lastAngle := 0 }

/-- A car at rest at track angle `0` (`200` to the east of the centre) whose
stored sample is `0` and whose heading is `6` radians. -/
def carOnSeam (cv : Canvas α) : Car α :=
  { carAtEast cv 0 with angle := 6 }

/-- A name of 21 characters. -/
def longName : String := "ABCDEFGHIJKLMNOPQRSTU"

/-- A `move` payload that supplies every property the server reads, with the
given `name` and `lastAngle`. -/
def fullPayload (name : String) (lastAngle : α) : MoveData α :=
  { x := .num 600, y := .num 310, angle := .num 2, speed := .num 3, laps := .num 1,
    winner := .bool false, name := .str name, lastAngle := .num lastAngle }

end Program

/-! ## Vocabulary of the properties -/

/-- Distance of the point `p` from `(cx, cy)`, as `clampToTrack` computes it. -/
noncomputable def radius (cx cy : ℝ) (p : ℝ × ℝ) : ℝ :=
  Real.sqrt ((p.1 - cx) * (p.1 - cx) + (p.2 - cy) * (p.2 - cy))

/-- The point `p` lies in the annulus of centre `(cx, cy)` between the radii
`INNER_R` and `OUTER_R`. -/
def inAnnulus (cx cy : ℝ) (p : ℝ × ℝ) : Prop :=
  INNER_R ≤ radius cx cy p ∧ radius cx cy p ≤ OUTER_R

/-- The angular samples `prev` and `curr` of `[0, 2π)` are less than half a
turn apart on the circle. -/
def lessThanHalfTurn (prev curr : ℝ) : Prop :=
  |prev - curr| < Real.pi ∨ 2 * Real.pi - |prev - curr| < Real.pi

/-- The angle `ref` lies on the shorter of the two arcs of the circle between
the samples `prev` and `curr` of `[0, 2π)`: the interval between them when
they differ by less than `π`, the arc through the seam `0 = 2π` when they
differ by more. -/
def onShortArc (prev curr ref : ℝ) : Prop :=
  (|prev - curr| < Real.pi ∧ min prev curr ≤ ref ∧ ref ≤ max prev curr) ∨
  (Real.pi < |prev - curr| ∧ (ref ≤ min prev curr ∨ max prev curr ≤ ref))

/-! ## Properties of the primitives -/

theorem jsMod_of_nonneg (a T : ℝ) (hT : 0 < T) (ha : 0 ≤ a) :
    jsMod a T = a - T * (⌊a / T⌋ : ℝ) ∧ 0 ≤ jsMod a T ∧ jsMod a T < T := by
  have hq : 0 ≤ a / T := div_nonneg ha hT.le
  have e : jsMod a T = a - T * (⌊a / T⌋ : ℝ) := by
    unfold jsMod jsTrunc
    rw [if_pos hq]
  have h1 : (⌊a / T⌋ : ℝ) ≤ a / T := Int.floor_le _
  have h2 : a / T < (⌊a / T⌋ : ℝ) + 1 := Int.lt_floor_add_one _
  have h3 : T * (a / T) = a := by field_simp
  refine ⟨e, ?_, ?_⟩
  · rw [e]; nlinarith [mul_le_mul_of_nonneg_left h1 hT.le]
  · rw [e]; nlinarith [mul_lt_mul_of_pos_left h2 hT]

theorem jsMod_of_neg (a T : ℝ) (hT : 0 < T) (ha : a < 0) :
    jsMod a T = a - T * (⌈a / T⌉ : ℝ) ∧ -T < jsMod a T ∧ jsMod a T ≤ 0 := by
  have hq : ¬ 0 ≤ a / T := not_le.mpr (div_neg_of_neg_of_pos ha hT)
  have e : jsMod a T = a - T * (⌈a / T⌉ : ℝ) := by
    unfold jsMod jsTrunc
    rw [if_neg hq]
  have h1 : a / T ≤ (⌈a / T⌉ : ℝ) := Int.le_ceil _
  have h2 : (⌈a / T⌉ : ℝ) < a / T + 1 := Int.ceil_lt_add_one _
  have h3 : T * (a / T) = a := by field_simp
  refine ⟨e, ?_, ?_⟩
  · rw [e]; nlinarith [mul_lt_mul_of_pos_left h2 hT]
  · rw [e]; nlinarith [mul_le_mul_of_nonneg_left h1 hT.le]

theorem two_pi_pos : 0 < Real.pi * 2 := by positivity

/-- The value of `normAngle` lies in `[0, 2π)`. -/
theorem normAngle_mem (a : ℝ) :
    0 ≤ normAngle realMath a ∧ normAngle realMath a < 2 * Real.pi := by
  have hT := two_pi_pos
  unfold normAngle
  simp only [realMath]
  rcases le_or_lt 0 a with ha | ha
  · obtain ⟨_, h0, h1⟩ := jsMod_of_nonneg a (Real.pi * 2) hT ha
    rw [if_neg (not_lt.mpr h0)]
    exact ⟨h0, by linarith⟩
  · obtain ⟨_, h0, h1⟩ := jsMod_of_neg a (Real.pi * 2) hT ha
    by_cases hv : jsMod a (Real.pi * 2) < 0
    · rw [if_pos hv]
      exact ⟨by linarith, by linarith⟩
    · rw [if_neg hv]
      exact ⟨not_lt.mp hv, by linarith⟩

/-- An angle already in `[0, 2π)` is its own normal form. -/
theorem normAngle_of_mem (a : ℝ) (h0 : 0 ≤ a) (h1 : a < 2 * Real.pi) :
    normAngle realMath a = a := by
  have hT := two_pi_pos
  obtain ⟨e, h0', _⟩ := jsMod_of_nonneg a (Real.pi * 2) hT h0
  unfold normAngle
  simp only [realMath]
  rw [if_neg (not_lt.mpr h0'), e]
  have hf : ⌊a / (Real.pi * 2)⌋ = 0 := by
    rw [Int.floor_eq_zero_iff]
    constructor
    · positivity
    · rw [div_lt_one hT]; linarith
  rw [hf]; simp

/-- The reference angle of the start line: `normAngle(START_ANGLE) = 3π/2`. -/
theorem normAngle_start : normAngle realMath (START_ANGLE realMath) = 3 * Real.pi / 2 := by
  have hT := two_pi_pos
  have hpi := Real.pi_pos
  have ha : START_ANGLE realMath < 0 := by
    simp only [START_ANGLE, realMath]; linarith
  obtain ⟨e, h0, h1⟩ := jsMod_of_neg _ (Real.pi * 2) hT ha
  have hc : ⌈START_ANGLE realMath / (Real.pi * 2)⌉ = 0 := by
    rw [Int.ceil_eq_zero_iff]
    simp only [START_ANGLE, realMath]
    constructor
    · rw [lt_div_iff₀ hT]; linarith
    · apply div_nonpos_of_nonpos_of_nonneg <;> linarith
  unfold normAngle
  simp only [realMath] at *
  rw [e, hc]
  simp only [START_ANGLE, Int.cast_zero, mul_zero, sub_zero]
  rw [if_pos (by linarith)]
  ring

/-! ## Properties of the track geometry -/

theorem sqrt_scale (dx dy f : ℝ) (hf : 0 ≤ f) :
    Real.sqrt ((dx * f) * (dx * f) + (dy * f) * (dy * f)) = Real.sqrt (dx * dx + dy * dy) * f := by
  have h : (dx * f) * (dx * f) + (dy * f) * (dy * f) = (dx * dx + dy * dy) * (f * f) := by ring
  rw [h, Real.sqrt_mul (by nlinarith [mul_self_nonneg dx, mul_self_nonneg dy]),
    Real.sqrt_mul_self hf]

theorem radius_scaled (cx cy dx dy f : ℝ) (hf : 0 ≤ f) :
    radius cx cy (cx + dx * f, cy + dy * f) = Real.sqrt (dx * dx + dy * dy) * f := by
  unfold radius
  simp only [add_sub_cancel_left]
  exact sqrt_scale dx dy f hf

/-- Beyond `OUTER_R - 10` the point is scaled by `250 / dist`. -/
theorem clampToTrack_far (cv : Canvas ℝ) (x y : ℝ)
    (h : radius (CENTER_X cv) (CENTER_Y cv) (x, y) > 250) :
    clampToTrack realMath cv x y =
      (CENTER_X cv + (x - CENTER_X cv) * (250 / radius (CENTER_X cv) (CENTER_Y cv) (x, y)),
       CENTER_Y cv + (y - CENTER_Y cv) * (250 / radius (CENTER_X cv) (CENTER_Y cv) (x, y))) := by
  unfold radius at *
  simp only at h
  unfold clampToTrack
  simp only [realMath, OUTER_R]
  norm_num
  intro h'
  linarith

/-- Below `INNER_R + 10`, away from the centre, the point is scaled by
`130 / dist`. -/
theorem clampToTrack_near (cv : Canvas ℝ) (x y : ℝ)
    (h0 : 0 < radius (CENTER_X cv) (CENTER_Y cv) (x, y))
    (h : radius (CENTER_X cv) (CENTER_Y cv) (x, y) < 130) :
    clampToTrack realMath cv x y =
      (CENTER_X cv + (x - CENTER_X cv) * (130 / radius (CENTER_X cv) (CENTER_Y cv) (x, y)),
       CENTER_Y cv + (y - CENTER_Y cv) * (130 / radius (CENTER_X cv) (CENTER_Y cv) (x, y))) := by
  unfold radius at *
  simp only at h h0
  unfold clampToTrack
  simp only [realMath, OUTER_R, INNER_R]
  norm_num
  rw [if_neg (by linarith), if_pos h, if_neg (ne_of_gt h0)]

/-- Between `INNER_R + 10` and `OUTER_R - 10` the point is returned as is. -/
theorem clampToTrack_mid (cv : Canvas ℝ) (x y : ℝ)
    (h0 : 130 ≤ radius (CENTER_X cv) (CENTER_Y cv) (x, y))
    (h : radius (CENTER_X cv) (CENTER_Y cv) (x, y) ≤ 250) :
    clampToTrack realMath cv x y = (x, y) := by
  unfold radius at *
  simp only at h h0
  unfold clampToTrack
  simp only [realMath, OUTER_R, INNER_R]
  norm_num
  rw [if_neg (by linarith), if_neg (by linarith)]

/-- Away from the centre the clamped point is at a distance in `[130, 250]`. -/
theorem clampToTrack_radius (cv : Canvas ℝ) (x y : ℝ)
    (h0 : 0 < radius (CENTER_X cv) (CENTER_Y cv) (x, y)) :
    130 ≤ radius (CENTER_X cv) (CENTER_Y cv) (clampToTrack realMath cv x y) ∧
    radius (CENTER_X cv) (CENTER_Y cv) (clampToTrack realMath cv x y) ≤ 250 := by
  have hr : radius (CENTER_X cv) (CENTER_Y cv) (x, y)
      = Real.sqrt ((x - CENTER_X cv) * (x - CENTER_X cv) + (y - CENTER_Y cv) * (y - CENTER_Y cv)) := rfl
  rcases lt_or_le 250 (radius (CENTER_X cv) (CENTER_Y cv) (x, y)) with h | h
  · rw [clampToTrack_far cv x y h, radius_scaled _ _ _ _ _ (by positivity), ← hr]
    have : radius (CENTER_X cv) (CENTER_Y cv) (x, y) *
        (250 / radius (CENTER_X cv) (CENTER_Y cv) (x, y)) = 250 := by field_simp
    rw [this]; constructor <;> norm_num
  · rcases lt_or_le (radius (CENTER_X cv) (CENTER_Y cv) (x, y)) 130 with h' | h'
    · rw [clampToTrack_near cv x y h0 h', radius_scaled _ _ _ _ _ (by positivity), ← hr]
      have : radius (CENTER_X cv) (CENTER_Y cv) (x, y) *
          (130 / radius (CENTER_X cv) (CENTER_Y cv) (x, y)) = 130 := by field_simp
      rw [this]; constructor <;> norm_num
    · rw [clampToTrack_mid cv x y h' h]
      exact ⟨h', h⟩

/-- Inside the inner hole but off the centre, the point is pushed out to
distance `INNER_R + 10 = 130`. -/
theorem clampToTrack_inner_off_center (cv : Canvas ℝ) (x y : ℝ)
    (h0 : 0 < radius (CENTER_X cv) (CENTER_Y cv) (x, y))
    (h : radius (CENTER_X cv) (CENTER_Y cv) (x, y) < INNER_R) :
    radius (CENTER_X cv) (CENTER_Y cv) (clampToTrack realMath cv x y) = INNER_R + 10 := by
  have hr : radius (CENTER_X cv) (CENTER_Y cv) (x, y)
      = Real.sqrt ((x - CENTER_X cv) * (x - CENTER_X cv) + (y - CENTER_Y cv) * (y - CENTER_Y cv)) := rfl
  simp only [INNER_R] at *
  rw [clampToTrack_near cv x y h0 (by linarith), radius_scaled _ _ _ _ _ (by positivity), ← hr]
  field_simp
  norm_num

theorem radius_center (cx cy : ℝ) : radius cx cy (cx, cy) = 0 := by
  unfold radius
  simp

/-! ## Properties of the registry and of the kinematics -/

theorem Registry.get_put_self (players : Registry ℝ) (id : String) (v : Vehicle ℝ) :
    Registry.get (Registry.put players id v) id = some v := by
  unfold Registry.put
  split
  · rename_i h
    unfold Registry.get at *
    induction players with
    | nil => simp at h
    | cons e rest ih =>
      by_cases he : e.1 = id
      · simp [List.find?, he]
      · simp only [List.map_cons, if_neg he]
        simp only [List.find?_cons, he, decide_False] at h ⊢
        exact ih h
  · rename_i h
    unfold Registry.get at *
    simp only [List.find?_append]
    cases hf : List.find? (fun e => decide (e.1 = id)) players with
    | some w => simp [hf] at h
    | none => simp

theorem applyControls_speed (keys : Keys) (b : ℝ) (car : Car ℝ) :
    -2 ≤ (applyControls keys b car).2 ∧ (applyControls keys b car).2 ≤ 6.2 := by
  unfold applyControls
  simp only
  split_ifs <;> constructor <;> norm_num at * <;> linarith

theorem moved_radius_pos (cx cy x y θ s : ℝ) (h : 120 ≤ radius cx cy (x, y))
    (hs : -2 ≤ s) (hs' : s ≤ 6.2) :
    0 < radius cx cy (x + Real.cos θ * s, y + Real.sin θ * s) := by
  unfold radius at *
  simp only at *
  rw [Real.sqrt_pos]
  have h2 : (120:ℝ) ^ 2 ≤ (x - cx) * (x - cx) + (y - cy) * (y - cy) := by
    exact (Real.le_sqrt' (by norm_num : (0:ℝ) < 120)).mp h
  have hcs := Real.cos_sq_add_sin_sq θ
  by_contra hneg
  push_neg at hneg
  have ha : x + Real.cos θ * s - cx = 0 := by nlinarith [mul_self_nonneg (x + Real.cos θ * s - cx), mul_self_nonneg (y + Real.sin θ * s - cy)]
  have hb : y + Real.sin θ * s - cy = 0 := by nlinarith [mul_self_nonneg (x + Real.cos θ * s - cx), mul_self_nonneg (y + Real.sin θ * s - cy)]
  have hx : x - cx = - (Real.cos θ * s) := by linarith
  have hy : y - cy = - (Real.sin θ * s) := by linarith
  rw [hx, hy] at h2
  have : (-(Real.cos θ * s)) * (-(Real.cos θ * s)) + (-(Real.sin θ * s)) * (-(Real.sin θ * s)) = s * s * (Real.cos θ ^ 2 + Real.sin θ ^ 2) := by ring
  rw [this, hcs] at h2
  nlinarith

theorem radius_east (cx cy r : ℝ) (hr : 0 ≤ r) : radius cx cy (cx + r, cy) = r := by
  unfold radius
  simp only [add_sub_cancel_left, sub_self, mul_zero, add_zero]
  exact Real.sqrt_mul_self hr

theorem atan2_east (r : ℝ) (hr : 0 ≤ r) : realMath.atan2 0 r = 0 := by
  simp only [realMath]
  have : (⟨r, 0⟩ : ℂ) = ((r : ℝ) : ℂ) := by
    apply Complex.ext <;> simp
  rw [this]
  exact Complex.arg_ofReal_of_nonneg hr

theorem driveCar_monotone (cv : Canvas ℝ) (keys : Keys) (b : ℝ) (car : Car ℝ) :
    car.laps ≤ (driveCar realMath cv keys b car).1.laps ∧
    (car.winner = true → (driveCar realMath cv keys b car).1.winner = true) := by
  unfold driveCar
  simp only
  constructor
  · split_ifs <;> omega
  · intro hw
    split_ifs <;> first | rfl | exact hw

theorem gameLoop_myCar (cv : Canvas ℝ) (now : ℤ) (c : Client ℝ) (car : Car ℝ)
    (hc : c.myCar = some car) :
    (gameLoop realMath cv now c).1.myCar = some (driveCar realMath cv c.keys c.boostClicks car).1 := by
  simp only [gameLoop, hc]

theorem runTicks_monotone (cv : Canvas ℝ) (inputs : List (ℤ × Keys × ℕ)) :
    ∀ (c : Client ℝ) (car : Car ℝ), c.myCar = some car →
      ∃ car' : Car ℝ, (runTicks realMath cv inputs c).myCar = some car' ∧
        car.laps ≤ car'.laps ∧ (car.winner = true → car'.winner = true) := by
  induction inputs with
  | nil =>
    intro c car hc
    exact ⟨car, hc, le_rfl, fun h => h⟩
  | cons i rest ih =>
    intro c car hc
    obtain ⟨now, keys, clicks⟩ := i
    have hstep := gameLoop_myCar cv now { c with keys := keys, boostClicks := c.boostClicks + clicks }
      car hc
    obtain ⟨hl, hw⟩ := driveCar_monotone cv keys (c.boostClicks + clicks) car
    obtain ⟨car', h1, h2, h3⟩ := ih _ _ hstep
    exact ⟨car', h1, le_trans hl h2, fun h => h3 (hw h)⟩

/-- The angular term of the progress score lies in `[0, 100000)`. -/
theorem computeProgress_angular (cv : Canvas ℝ) (p : Car ℝ) :
    ∃ f : ℤ, computeProgress realMath cv p = (p.laps : ℤ) * 100000 + f ∧ 0 ≤ f ∧ f < 100000 := by
  obtain ⟨h0, h1⟩ := normAngle_mem (realMath.atan2 (p.y - CENTER_Y cv) (p.x - CENTER_X cv))
  have hpi := Real.pi_pos
  have hpi' := Real.pi_lt_d2
  have hl : (if p.laps ≠ 0 then p.laps else 0 : ℕ) = p.laps := by
    split_ifs with h
    · rfl
    · push_neg at h; exact h.symm
  have hP : realMath.PI = Real.pi := rfl
  unfold computeProgress
  simp only [hl, normAngle_start, hP]
  generalize normAngle realMath (realMath.atan2 (p.y - CENTER_Y cv) (p.x - CENTER_X cv)) = A
    at h0 h1
  refine ⟨_, rfl, ?_, ?_⟩
  · rw [Int.floor_nonneg]
    split_ifs with h
    · nlinarith
    · push_neg at h; nlinarith
  · rw [Int.floor_lt]
    push_cast
    split_ifs with h
    · nlinarith
    · nlinarith

theorem normAngle_of_neg (a : ℝ) (h0 : -(2 * Real.pi) < a) (h1 : a < 0) :
    normAngle realMath a = a + 2 * Real.pi := by
  have hT := two_pi_pos
  obtain ⟨e, _, _⟩ := jsMod_of_neg a (Real.pi * 2) hT h1
  have hc : ⌈a / (Real.pi * 2)⌉ = 0 := by
    rw [Int.ceil_eq_zero_iff]
    constructor
    · rw [lt_div_iff₀ hT]; linarith
    · apply div_nonpos_of_nonpos_of_nonneg <;> linarith
  unfold normAngle
  simp only [realMath]
  rw [e, hc]
  simp only [Int.cast_zero, mul_zero, sub_zero]
  rw [if_pos h1]
  ring

/-- The track angle of the point `200` east and `1` above the centre. -/
theorem atan2_before_seam :
    -(Real.pi / 4) < realMath.atan2 (-1) 200 ∧ realMath.atan2 (-1) 200 < 0 := by
  simp only [realMath]
  have hneg : Complex.arg ⟨200, -1⟩ < 0 := by
    rw [Complex.arg_neg_iff]; norm_num
  have habs : |Complex.arg ⟨200, -1⟩| < Real.pi / 2 := by
    rw [Complex.abs_arg_lt_pi_div_two_iff]; left; norm_num
  have htan : Real.tan (Complex.arg ⟨200, -1⟩) = -1 / 200 := by
    rw [Complex.tan_arg]
  have harc : Complex.arg ⟨200, -1⟩ = Real.arctan (-1 / 200) := by
    rw [← htan, Real.arctan_tan (abs_lt.mp habs).1 (abs_lt.mp habs).2]
  refine ⟨?_, hneg⟩
  rw [harc]
  have h1 : Real.arctan (-1) < Real.arctan (-1 / 200) :=
    Real.arctan_strictMono (by norm_num)
  rw [Real.arctan_neg, Real.arctan_one] at h1
  exact h1

/-- The stored sample of `carBeforeSeam` lies in the last eighth of a turn. -/
theorem sample_before_seam :
    normAngle realMath (realMath.atan2 (-1) 200) = realMath.atan2 (-1) 200 + 2 * Real.pi ∧
    7 * Real.pi / 4 < normAngle realMath (realMath.atan2 (-1) 200) ∧
    normAngle realMath (realMath.atan2 (-1) 200) < 2 * Real.pi := by
  obtain ⟨h0, h1⟩ := atan2_before_seam
  have hpi := Real.pi_pos
  have e := normAngle_of_neg (realMath.atan2 (-1) 200) (by linarith) h1
  rw [e]
  exact ⟨rfl, by linarith, by linarith⟩

theorem applyControls_carBeforeSeam (cv : Canvas ℝ) :
    applyControls noKeys 0 (carBeforeSeam realMath cv) = (Real.pi / 2, 1) := by
  unfold applyControls noKeys carBeforeSeam
  simp only [realMath]
  norm_num

/-- One tick of `carBeforeSeam` with no key held: the car arrives `200` east of
the centre, at track angle `0`, and a lap is counted. -/
theorem driveCar_carBeforeSeam (cv : Canvas ℝ) :
    (driveCar realMath cv noKeys 0 (carBeforeSeam realMath cv)).1 =
      { carBeforeSeam realMath cv with
        x := CENTER_X cv + 200
        y := CENTER_Y cv
        speed := 1
        laps := 1
        lastAngle := 0 } := by
  obtain ⟨hs, hs0, hs1⟩ := sample_before_seam
  have hpi := Real.pi_gt_three
  have hc := applyControls_carBeforeSeam cv
  have hr : radius (CENTER_X cv) (CENTER_Y cv) (CENTER_X cv + 200, CENTER_Y cv) = 200 :=
    radius_east _ _ 200 (by norm_num)
  have hm : clampToTrack realMath cv (CENTER_X cv + 200) (CENTER_Y cv)
      = (CENTER_X cv + 200, CENTER_Y cv) :=
    clampToTrack_mid cv _ _ (by rw [hr]; norm_num) (by rw [hr]; norm_num)
  have ha : normAngle realMath (realMath.atan2 (CENTER_Y cv - CENTER_Y cv)
      (CENTER_X cv + 200 - CENTER_X cv)) = 0 := by
    rw [sub_self, add_sub_cancel_left, atan2_east 200 (by norm_num)]
    exact normAngle_of_mem 0 le_rfl (by positivity)
  have hla : normAngle realMath (realMath.atan2 (-1) 200) ≠ 0 := by
    intro h; rw [h] at hs0; linarith
  have hn : normAngle realMath (normAngle realMath (realMath.atan2 (-1) 200))
      = normAngle realMath (realMath.atan2 (-1) 200) :=
    normAngle_of_mem _ (by linarith) hs1
  have hx : lapCrossed realMath (normAngle realMath (realMath.atan2 (-1) 200)) 0 = true := by
    unfold lapCrossed
    rw [normAngle_start]
    simp only [Bool.and_eq_true, decide_eq_true_eq]
    constructor <;> linarith
  have hmx : (carBeforeSeam realMath cv).x + realMath.cos (Real.pi / 2) * 1 = CENTER_X cv + 200 := by
    simp [carBeforeSeam, realMath]
  have hmy : (carBeforeSeam realMath cv).y + realMath.sin (Real.pi / 2) * 1 = CENTER_Y cv := by
    simp [carBeforeSeam, realMath]
  have hl : (carBeforeSeam realMath cv).lastAngle = normAngle realMath (realMath.atan2 (-1) 200) :=
    rfl
  unfold driveCar
  simp only [hc, hmx, hmy, hm, ha, hl, if_pos hla, hn, hx]
  simp [carBeforeSeam, TOTAL_LAPS]
  rfl

theorem Registry.get_put_other (players : Registry ℝ) (id d : String) (v : Vehicle ℝ)
    (hd : d ≠ id) : Registry.get (Registry.put players id v) d = Registry.get players d := by
  have hne' : ¬ id = d := fun h => hd h.symm
  unfold Registry.put
  split
  · rename_i h
    clear h
    unfold Registry.get
    induction players with
    | nil => rfl
    | cons e rest ih =>
      by_cases he : e.1 = id
      · have hne : ¬ e.1 = d := fun h => hd (h.symm.trans he)
        simp only [List.map_cons, if_pos he, List.find?_cons, hne, hne', decide_False]
        exact ih
      · by_cases hed : e.1 = d
        · rw [List.map_cons, if_neg he, List.find?_cons, List.find?_cons]
          simp [hed]
        · simp only [List.map_cons, if_neg he, List.find?_cons, hed, decide_False]
          exact ih
  · unfold Registry.get
    simp [List.find?_append, hne']

theorem Registry.put_keys (players : Registry ℝ) (id : String) (v v' : Vehicle ℝ)
    (h : Registry.get players id = some v') :
    (Registry.put players id v).map Prod.fst = players.map Prod.fst := by
  unfold Registry.put
  rw [h]
  simp only [Option.isSome_some, if_true]
  rw [List.map_map]
  apply List.map_congr_left
  intro e _
  by_cases he : e.1 = id
  · simp [he]
  · simp [he]

theorem driveCar_boost (cv : Canvas ℝ) (keys : Keys) (b : ℝ) (car : Car ℝ) :
    (driveCar realMath cv keys b car).2 = if b > 0 then b - 0.35 else b := rfl

theorem driveCar_detectLap (cv : Canvas ℝ) (keys : Keys) (b : ℝ) (car : Car ℝ) :
    (⟨(driveCar realMath cv keys b car).1.laps, (driveCar realMath cv keys b car).1.winner,
      (driveCar realMath cv keys b car).1.lastAngle⟩ : LapState ℝ) =
    detectLap realMath (applyControls keys b car).1 (driveCar realMath cv keys b car).1.lastAngle
      ⟨car.laps, car.winner, car.lastAngle⟩ := rfl

theorem detectLap_laps (angle currAng : ℝ) (s : LapState ℝ) :
    (detectLap realMath angle currAng s).laps =
      if lapCrossed realMath (prevAngle realMath angle s.lastAngle) currAng then s.laps + 1
      else s.laps := by
  unfold detectLap
  simp only
  split_ifs <;> omega

theorem detectLap_winner_iff (angle currAng : ℝ) (s : LapState ℝ)
    (h : s.winner = true ↔ s.laps ≥ TOTAL_LAPS) :
    ((detectLap realMath angle currAng s).winner = true ↔
      (detectLap realMath angle currAng s).laps ≥ TOTAL_LAPS) ∧
    (detectLap realMath angle currAng s).laps ≤ s.laps + 1 ∧
    s.laps ≤ (detectLap realMath angle currAng s).laps := by
  unfold detectLap
  simp only [TOTAL_LAPS] at *
  cases hx : lapCrossed realMath (prevAngle realMath angle s.lastAngle) currAng <;>
    cases hw : s.winner <;> simp [hx, hw] at h ⊢ <;> (try split_ifs) <;> omega

theorem driveCar_winner_iff (cv : Canvas ℝ) (keys : Keys) (b : ℝ) (car : Car ℝ)
    (h : car.winner = true ↔ car.laps ≥ TOTAL_LAPS) :
    ((driveCar realMath cv keys b car).1.winner = true ↔
      (driveCar realMath cv keys b car).1.laps ≥ TOTAL_LAPS) ∧
    (driveCar realMath cv keys b car).1.laps ≤ car.laps + 1 ∧
    car.laps ≤ (driveCar realMath cv keys b car).1.laps := by
  have e := driveCar_detectLap cv keys b car
  have el := congrArg LapState.laps e
  have ew := congrArg LapState.winner e
  simp only at el ew
  rw [el, ew]
  exact detectLap_winner_iff _ _ ⟨car.laps, car.winner, car.lastAngle⟩ h

theorem runTicks_append (cv : Canvas ℝ) (xs ys : List (ℤ × Keys × ℕ)) :
    ∀ c : Client ℝ, runTicks realMath cv (xs ++ ys) c
      = runTicks realMath cv ys (runTicks realMath cv xs c) := by
  induction xs with
  | nil => intro c; rfl
  | cons i rest ih =>
    intro c
    obtain ⟨now, keys, clicks⟩ := i
    simp only [List.cons_append, runTicks]
    exact ih _

theorem runTicks_winner_iff (cv : Canvas ℝ) (inputs : List (ℤ × Keys × ℕ)) :
    ∀ (c : Client ℝ) (car : Car ℝ), c.myCar = some car →
      (car.winner = true ↔ car.laps ≥ TOTAL_LAPS) →
      ∃ car' : Car ℝ, (runTicks realMath cv inputs c).myCar = some car' ∧
        (car'.winner = true ↔ car'.laps ≥ TOTAL_LAPS) := by
  induction inputs with
  | nil =>
    intro c car hc h
    exact ⟨car, hc, h⟩
  | cons i rest ih =>
    intro c car hc h
    obtain ⟨now, keys, clicks⟩ := i
    have hstep := gameLoop_myCar cv now { c with keys := keys, boostClicks := c.boostClicks + clicks }
      car hc
    exact ih _ _ hstep (driveCar_winner_iff cv keys (c.boostClicks + clicks) car h).1

/-- The boost accumulator after one tick that follows `clicks` clicks. -/
theorem gameLoop_boostClicks (cv : Canvas ℝ) (now : ℤ) (c : Client ℝ) (car : Car ℝ)
    (hc : c.myCar = some car) :
    (gameLoop realMath cv now c).1.boostClicks
      = if c.boostClicks > 0 then c.boostClicks - 0.35 else c.boostClicks := by
  simp only [gameLoop, hc]
  rfl

theorem runTicks_boostClicks (cv : Canvas ℝ) (inputs : List (ℤ × Keys × ℕ)) :
    ∀ (c : Client ℝ) (car : Car ℝ), c.myCar = some car →
      (runTicks realMath cv inputs c).boostClicks =
        inputs.foldl (fun b i => if b + (i.2.2 : ℝ) > 0 then b + (i.2.2 : ℝ) - 0.35
          else b + (i.2.2 : ℝ)) c.boostClicks := by
  induction inputs with
  | nil => intro c car _; rfl
  | cons i rest ih =>
    intro c car hc
    obtain ⟨now, keys, clicks⟩ := i
    have hstep := gameLoop_myCar cv now { c with keys := keys, boostClicks := c.boostClicks + clicks }
      car hc
    have hb := gameLoop_boostClicks cv now
      { c with keys := keys, boostClicks := c.boostClicks + clicks } car hc
    simp only [runTicks, List.foldl_cons]
    rw [ih _ _ hstep, hb]

/-- Every property but `lastAngle` and `name` is stored verbatim, `lastAngle`
is stored when it is truthy, and `name` is stored when it is a non-empty
string and kept otherwise. -/
theorem onMove_fields (players : Registry ℝ) (socketId : String) (v : Vehicle ℝ)
    (d : MoveData ℝ) (h : Registry.get players socketId = some v) :
    ∃ v' : Vehicle ℝ,
      onMove players socketId (some d) = Except.ok (Registry.put players socketId v') ∧
      v'.x = d.x ∧ v'.y = d.y ∧ v'.angle = d.angle ∧ v'.speed = d.speed ∧ v'.laps = d.laps ∧
      v'.winner = d.winner ∧ v'.id = v.id ∧ v'.color = v.color ∧
      v'.name = JsVal.or d.name v.name ∧ v'.lastAngle = JsVal.or d.lastAngle v.lastAngle := by
  refine ⟨{ v with x := d.x, y := d.y, angle := d.angle, speed := d.speed, laps := d.laps,
                   winner := d.winner, name := JsVal.or d.name v.name,
                   lastAngle := JsVal.or d.lastAngle v.lastAngle }, ?_,
    rfl, rfl, rfl, rfl, rfl, rfl, rfl, rfl, rfl, rfl⟩
  unfold onMove
  rw [h]

theorem take20_spec (n : String) :
    (n.take 20).data = n.data.take 20 ∧ (n.take 20).length ≤ 20 ∧
    (n.length ≤ 20 → n.take 20 = n) := by
  rw [String.take_eq]
  refine ⟨rfl, ?_, ?_⟩
  · show (n.data.take 20).length ≤ 20
    rw [List.length_take]
    exact Nat.min_le_left _ _
  · intro h
    have : n.data.take 20 = n.data := List.take_of_length_le h
    rw [this]

theorem detectLap_of_not_crossed (angle currAng : ℝ) (s : LapState ℝ)
    (h : lapCrossed realMath (prevAngle realMath angle s.lastAngle) currAng = false) :
    detectLap realMath angle currAng s = ⟨s.laps, s.winner, currAng⟩ := by
  unfold detectLap
  simp [h]

theorem prevAngle_of_sample (angle p : ℝ) (h0 : 0 < p) (h1 : p < 2 * Real.pi) :
    prevAngle realMath angle p = p := by
  unfold prevAngle
  rw [if_pos (ne_of_gt h0)]
  exact normAngle_of_mem p h0.le h1

theorem lapCrossed_eq (prev curr : ℝ) :
    lapCrossed realMath prev curr
      = (decide (prev > 3 * Real.pi / 2 + 0.01) && decide (curr ≤ 3 * Real.pi / 2 + 0.01)) := by
  unfold lapCrossed
  rw [normAngle_start]

theorem applyControls_at_rest (b : ℝ) (car : Car ℝ) (h : car.speed = 0) :
    applyControls noKeys b car = (car.angle, 0) := by
  unfold applyControls noKeys
  simp only [h]
  norm_num

/-- One tick of `carOnSeam` with no key held: the car stays at track angle `0`
and a lap is counted. -/
theorem driveCar_carOnSeam (cv : Canvas ℝ) :
    (driveCar realMath cv noKeys 0 (carOnSeam cv)).1 = { carOnSeam cv with laps := 1 } := by
  have hpi := Real.pi_gt_d2
  have hpi' := Real.pi_lt_d2
  have hc : applyControls noKeys 0 (carOnSeam cv) = (6, 0) :=
    applyControls_at_rest 0 (carOnSeam cv) rfl
  have hr : radius (CENTER_X cv) (CENTER_Y cv) (CENTER_X cv + 200, CENTER_Y cv) = 200 :=
    radius_east _ _ 200 (by norm_num)
  have hm : clampToTrack realMath cv (CENTER_X cv + 200) (CENTER_Y cv)
      = (CENTER_X cv + 200, CENTER_Y cv) :=
    clampToTrack_mid cv _ _ (by rw [hr]; norm_num) (by rw [hr]; norm_num)
  have ha : normAngle realMath (realMath.atan2 (CENTER_Y cv - CENTER_Y cv)
      (CENTER_X cv + 200 - CENTER_X cv)) = 0 := by
    rw [sub_self, add_sub_cancel_left, atan2_east 200 (by norm_num)]
    exact normAngle_of_mem 0 le_rfl (by positivity)
  have hn : normAngle realMath (6 : ℝ) = 6 := normAngle_of_mem 6 (by norm_num) (by linarith)
  have hx : lapCrossed realMath (6 : ℝ) 0 = true := by
    rw [lapCrossed_eq]
    simp only [Bool.and_eq_true, decide_eq_true_eq]
    constructor <;> linarith
  unfold driveCar
  simp only [hc]
  simp only [carOnSeam, carAtEast, mul_zero, add_zero, hm, ha, ne_eq, not_true_eq_false,
    if_false, hn, hx]
  simp [TOTAL_LAPS]

theorem normAngle_of_second_turn (x : ℝ) (h0 : 2 * Real.pi ≤ x) (h1 : x < 4 * Real.pi) :
    normAngle realMath x = x - 2 * Real.pi := by
  have hT := two_pi_pos
  obtain ⟨e, h0', _⟩ := jsMod_of_nonneg x (Real.pi * 2) hT (by linarith)
  have hf : ⌊x / (Real.pi * 2)⌋ = 1 := by
    rw [Int.floor_eq_iff, Int.cast_one]
    constructor
    · rw [le_div_iff₀ hT]; linarith
    · rw [div_lt_iff₀ hT]; linarith
  unfold normAngle
  simp only [realMath]
  rw [if_neg (not_lt.mpr h0'), e, hf]
  push_cast
  ring

theorem lapCrossed_true (p c : ℝ) (hp : p > 3 * Real.pi / 2 + 0.01)
    (hc : c ≤ 3 * Real.pi / 2 + 0.01) : lapCrossed realMath p c = true := by
  rw [lapCrossed_eq]
  simp only [Bool.and_eq_true, decide_eq_true_eq]
  exact ⟨hp, hc⟩

theorem lapCrossed_false (p c : ℝ)
    (h : p ≤ 3 * Real.pi / 2 + 0.01 ∨ 3 * Real.pi / 2 + 0.01 < c) :
    lapCrossed realMath p c = false := by
  rw [lapCrossed_eq]
  simp only [Bool.and_eq_false_imp, decide_eq_true_eq, decide_eq_false_iff_not, not_le]
  intro hp
  rcases h with h | h
  · exact absurd hp (not_lt.mpr h)
  · exact h

/-- One tick of a vehicle whose track angle advances from `φ` to `φ + δ`, the
angles being counted from the first sample without reduction: a lap is
counted exactly when the step passes `2π`. -/
theorem forward_step (angle φ δ : ℝ) (s : LapState ℝ)
    (hφ0 : 0 < φ) (hφ1 : φ + δ < 4 * Real.pi) (hδ0 : 0 < δ) (hδ1 : δ < Real.pi / 2 - 0.01)
    (hz : normAngle realMath φ ≠ 0) (hs : s.lastAngle = normAngle realMath φ) :
    (detectLap realMath angle (normAngle realMath (φ + δ)) s).laps
      = s.laps + (if φ < 2 * Real.pi ∧ 2 * Real.pi ≤ φ + δ then 1 else 0) := by
  have hpi := Real.pi_gt_three
  obtain ⟨hm0, hm1⟩ := normAngle_mem φ
  have hp : prevAngle realMath angle s.lastAngle = normAngle realMath φ := by
    rw [hs]
    exact prevAngle_of_sample _ _ (lt_of_le_of_ne hm0 (Ne.symm hz)) hm1
  rw [detectLap_laps, hp]
  rcases lt_or_le φ (2 * Real.pi) with h | h
  · rw [normAngle_of_mem φ hφ0.le h]
    rcases lt_or_le (φ + δ) (2 * Real.pi) with h' | h'
    · have hx : lapCrossed realMath φ (normAngle realMath (φ + δ)) = false := by
        rw [normAngle_of_mem _ (by linarith) h']
        apply lapCrossed_false
        by_cases hc : φ ≤ 3 * Real.pi / 2 + 0.01
        · left; exact hc
        · right; linarith
      simp [hx, h, not_le.mpr h']
    · have hx : lapCrossed realMath φ (normAngle realMath (φ + δ)) = true := by
        rw [normAngle_of_second_turn _ h' hφ1]
        apply lapCrossed_true <;> linarith
      simp [hx, h, h']
  · have hne : φ ≠ 2 * Real.pi := by
      intro e
      apply hz
      rw [e, normAngle_of_second_turn _ le_rfl (by linarith)]
      ring
    have hlt : 2 * Real.pi < φ := lt_of_le_of_ne h (Ne.symm hne)
    have hx : lapCrossed realMath (normAngle realMath φ) (normAngle realMath (φ + δ)) = false := by
      rw [normAngle_of_second_turn _ h (by linarith),
        normAngle_of_second_turn _ (by linarith) hφ1]
      apply lapCrossed_false
      by_cases hc : φ - 2 * Real.pi ≤ 3 * Real.pi / 2 + 0.01
      · left; exact hc
      · right; linarith
    simp [hx, not_lt.mpr h]

/-- The lap count after the ticks `k + 1, ..., k + m` of a vehicle whose track
angle advances by a constant step `δ > 0`. -/
theorem forward_run (heading : ℕ → ℝ) (a δ : ℝ) (n : ℕ)
    (ha0 : 0 < a) (ha1 : a < 2 * Real.pi) (hδ0 : 0 < δ) (hδ1 : δ < Real.pi / 2 - 0.01)
    (hn : (n : ℝ) * δ = 2 * Real.pi)
    (hz : ∀ k : ℕ, k < n → normAngle realMath (a + (k : ℝ) * δ) ≠ 0) :
    ∀ (m k : ℕ) (s : LapState ℝ), k + m ≤ n →
      s.lastAngle = normAngle realMath (a + (k : ℝ) * δ) →
      (detectLaps realMath (steadyTicks realMath heading a δ k m) s).laps
        = s.laps + (if a + (k : ℝ) * δ < 2 * Real.pi ∧
            2 * Real.pi ≤ a + ((k + m : ℕ) : ℝ) * δ then 1 else 0) := by
  intro m
  induction m with
  | zero =>
    intro k s _ _
    simp only [steadyTicks, detectLaps, Nat.add_zero]
    rw [if_neg (fun h => absurd h.1 (not_lt.mpr h.2))]
    rfl
  | succ m ih =>
    intro k s hk hs
    have hkn : k < n := by omega
    have hk0 : (0 : ℝ) ≤ (k : ℝ) * δ := by positivity
    have hm0 : (0 : ℝ) ≤ (m : ℝ) * δ := by positivity
    have hle : (k : ℝ) * δ + δ ≤ (n : ℝ) * δ := by
      have h1 : ((k + 1 : ℕ) : ℝ) * δ ≤ (n : ℝ) * δ :=
        mul_le_mul_of_nonneg_right (by exact_mod_cast hkn) hδ0.le
      push_cast at h1
      linarith
    have e1 : a + ((k + 1 : ℕ) : ℝ) * δ = a + (k : ℝ) * δ + δ := by push_cast; ring
    have e2 : a + ((k + 1 + m : ℕ) : ℝ) * δ = a + (k : ℝ) * δ + δ + (m : ℝ) * δ := by
      push_cast; ring
    have e3 : a + ((k + (m + 1) : ℕ) : ℝ) * δ = a + (k : ℝ) * δ + δ + (m : ℝ) * δ := by
      push_cast; ring
    have hstep := forward_step (heading (k + 1)) (a + (k : ℝ) * δ) δ s (by linarith)
      (by linarith) hδ0 hδ1 (hz k hkn) hs
    simp only [steadyTicks, detectLaps]
    rw [ih (k + 1) _ (by omega) rfl, e1, e2, e3, hstep]
    rcases lt_or_le (a + (k : ℝ) * δ) (2 * Real.pi) with h | h
    · rcases lt_or_le (a + (k : ℝ) * δ + δ) (2 * Real.pi) with h' | h'
      · simp [h, h', not_le.mpr h']
      · have h3 : 2 * Real.pi ≤ a + (k : ℝ) * δ + δ + (m : ℝ) * δ := by linarith
        simp [h, h', not_lt.mpr h', h3]
    · have h' : ¬ a + (k : ℝ) * δ + δ < 2 * Real.pi := by
        intro h2; linarith
      simp [not_lt.mpr h, h']

theorem crossed_indicator (p c : ℝ) (laps : ℕ) :
    (if lapCrossed realMath p c = true then laps + 1 else laps)
      = laps + (if 3 * Real.pi / 2 + 0.01 < p ∧ c ≤ 3 * Real.pi / 2 + 0.01 then 1 else 0) := by
  by_cases h : 3 * Real.pi / 2 + 0.01 < p ∧ c ≤ 3 * Real.pi / 2 + 0.01
  · rw [lapCrossed_true p c h.1 h.2, if_pos rfl, if_pos h]
  · have hx : lapCrossed realMath p c = false := by
      apply lapCrossed_false
      by_cases hp : p ≤ 3 * Real.pi / 2 + 0.01
      · left; exact hp
      · right
        by_contra hc
        exact h ⟨not_le.mp hp, not_lt.mp hc⟩
    rw [hx, if_neg (by simp), if_neg h]
    rfl

theorem crossing_indicator_add (τ φ ε X : ℝ) (hε : 0 ≤ ε) (hX : 0 ≤ X) :
    (if τ < φ ∧ φ - ε ≤ τ then 1 else 0) + (if τ < φ - ε ∧ φ - ε - X ≤ τ then 1 else 0)
      = (if τ < φ ∧ φ - ε - X ≤ τ then (1 : ℕ) else 0) := by
  by_cases h1 : τ < φ
  · by_cases h2 : φ - ε ≤ τ
    · have h3 : φ - ε - X ≤ τ := by linarith
      simp [h1, h2, h3, not_lt.mpr h2]
    · simp [h1, h2, not_le.mp h2]
  · have h2 : ¬ τ < φ - ε := by
      intro h; exact h1 (by linarith)
    simp [h1, h2]

/-- One tick of a vehicle whose track angle recedes from `φ` to `φ - ε`, the
angles being counted from the first sample without reduction: a lap is
counted exactly when the step passes `ref + 0.01` or `ref + 0.01 - 2π`. -/
theorem backward_step (angle φ ε : ℝ) (s : LapState ℝ)
    (hφ0 : φ < 2 * Real.pi) (hφ1 : -(2 * Real.pi) < φ - ε) (hε0 : 0 < ε)
    (hε1 : ε < Real.pi / 2 - 0.01)
    (hz : normAngle realMath φ ≠ 0) (hs : s.lastAngle = normAngle realMath φ) :
    (detectLap realMath angle (normAngle realMath (φ - ε)) s).laps
      = s.laps + (if 3 * Real.pi / 2 + 0.01 < φ ∧ φ - ε ≤ 3 * Real.pi / 2 + 0.01 then 1 else 0)
        + (if 3 * Real.pi / 2 + 0.01 - 2 * Real.pi < φ ∧
            φ - ε ≤ 3 * Real.pi / 2 + 0.01 - 2 * Real.pi then 1 else 0) := by
  have hpi := Real.pi_gt_three
  obtain ⟨hm0, hm1⟩ := normAngle_mem φ
  have hp : prevAngle realMath angle s.lastAngle = normAngle realMath φ := by
    rw [hs]
    exact prevAngle_of_sample _ _ (lt_of_le_of_ne hm0 (Ne.symm hz)) hm1
  have hφne : φ ≠ 0 := by
    intro e
    apply hz
    rw [e]
    exact normAngle_of_mem 0 le_rfl (by linarith)
  rw [detectLap_laps, hp, crossed_indicator]
  rcases lt_or_gt_of_ne hφne with hneg | hpos
  · have n1 : ¬ (3 * Real.pi / 2 + 0.01 < φ ∧ φ - ε ≤ 3 * Real.pi / 2 + 0.01) :=
      fun h => by linarith [h.1]
    rw [normAngle_of_neg φ (by linarith) hneg, normAngle_of_neg (φ - ε) hφ1 (by linarith),
      if_neg n1]
    by_cases hc : 3 * Real.pi / 2 + 0.01 < φ + 2 * Real.pi ∧
        φ - ε + 2 * Real.pi ≤ 3 * Real.pi / 2 + 0.01
    · rw [if_pos hc, if_pos ⟨by linarith [hc.1], by linarith [hc.2]⟩]
    · rw [if_neg hc, if_neg (fun h => hc ⟨by linarith [h.1], by linarith [h.2]⟩)]
  · have n2 : ¬ (3 * Real.pi / 2 + 0.01 - 2 * Real.pi < φ ∧
        φ - ε ≤ 3 * Real.pi / 2 + 0.01 - 2 * Real.pi) := fun h => by linarith [h.2]
    rw [normAngle_of_mem φ hpos.le hφ0, if_neg n2]
    rcases le_or_lt 0 (φ - ε) with h | h
    · rw [normAngle_of_mem (φ - ε) h (by linarith)]
      rfl
    · have n0 : ¬ (3 * Real.pi / 2 + 0.01 < φ ∧
          φ - ε + 2 * Real.pi ≤ 3 * Real.pi / 2 + 0.01) := fun h' => by linarith [h'.1]
      have n1 : ¬ (3 * Real.pi / 2 + 0.01 < φ ∧ φ - ε ≤ 3 * Real.pi / 2 + 0.01) :=
        fun h' => by linarith [h'.1]
      rw [normAngle_of_neg (φ - ε) hφ1 h, if_neg n0, if_neg n1]

/-- The lap count after the ticks `k + 1, ..., k + m` of a vehicle whose track
angle recedes by a constant step `ε > 0`. -/
theorem backward_run (heading : ℕ → ℝ) (a ε : ℝ) (n : ℕ)
    (ha0 : 0 < a) (ha1 : a < 2 * Real.pi) (hε0 : 0 < ε) (hε1 : ε < Real.pi / 2 - 0.01)
    (hn : (n : ℝ) * ε = 2 * Real.pi)
    (hz : ∀ k : ℕ, k < n → normAngle realMath (a + (k : ℝ) * (-ε)) ≠ 0) :
    ∀ (m k : ℕ) (s : LapState ℝ), k + m ≤ n →
      s.lastAngle = normAngle realMath (a + (k : ℝ) * (-ε)) →
      (detectLaps realMath (steadyTicks realMath heading a (-ε) k m) s).laps
        = s.laps
          + (if 3 * Real.pi / 2 + 0.01 < a + (k : ℝ) * (-ε) ∧
              a + (k : ℝ) * (-ε) - (m : ℝ) * ε ≤ 3 * Real.pi / 2 + 0.01 then 1 else 0)
          + (if 3 * Real.pi / 2 + 0.01 - 2 * Real.pi < a + (k : ℝ) * (-ε) ∧
              a + (k : ℝ) * (-ε) - (m : ℝ) * ε ≤ 3 * Real.pi / 2 + 0.01 - 2 * Real.pi
            then 1 else 0) := by
  intro m
  induction m with
  | zero =>
    intro k s _ _
    simp only [steadyTicks, detectLaps, Nat.cast_zero, zero_mul, sub_zero]
    rw [if_neg (fun h => absurd h.1 (not_lt.mpr h.2)),
      if_neg (fun h => absurd h.1 (not_lt.mpr h.2))]
    rfl
  | succ m ih =>
    intro k s hk hs
    have hkn : k < n := by omega
    have hk0 : (0 : ℝ) ≤ (k : ℝ) * ε := by positivity
    have hm0 : (0 : ℝ) ≤ (m : ℝ) * ε := by positivity
    have hle : (k : ℝ) * ε + ε ≤ (n : ℝ) * ε := by
      have h1 : ((k + 1 : ℕ) : ℝ) * ε ≤ (n : ℝ) * ε :=
        mul_le_mul_of_nonneg_right (by exact_mod_cast hkn) hε0.le
      push_cast at h1
      linarith
    have e1 : a + ((k + 1 : ℕ) : ℝ) * (-ε) = a + (k : ℝ) * (-ε) - ε := by push_cast; ring
    have e2 : a + (k : ℝ) * (-ε) - ((m + 1 : ℕ) : ℝ) * ε
        = a + (k : ℝ) * (-ε) - ε - (m : ℝ) * ε := by push_cast; ring
    have hstep := backward_step (heading (k + 1)) (a + (k : ℝ) * (-ε)) ε s (by linarith)
      (by linarith) hε0 hε1 (hz k hkn) hs
    simp only [steadyTicks, detectLaps]
    rw [ih (k + 1) _ (by omega) rfl, e1, e2, hstep,
      ← crossing_indicator_add (3 * Real.pi / 2 + 0.01) _ ε _ hε0.le hm0,
      ← crossing_indicator_add (3 * Real.pi / 2 + 0.01 - 2 * Real.pi) _ ε _ hε0.le hm0]
    ring

/-! ## Claims on the track geometry -/

/-- Claim C2. For every point whose distance from the track centre exceeds
`OUTER_R = 260`, `clampToTrack` returns a point at distance exactly
`OUTER_R - 10 = 250` from the centre, on the same ray from the centre: the
offset of the result is a positive multiple of the offset of the input. -/
theorem clampToTrack_outside_outer (cv : Canvas ℝ) (x y : ℝ)
    (h : radius (CENTER_X cv) (CENTER_Y cv) (x, y) > OUTER_R) :
    radius (CENTER_X cv) (CENTER_Y cv) (clampToTrack realMath cv x y) = OUTER_R - 10 ∧
    ∃ t : ℝ, 0 < t ∧
      (clampToTrack realMath cv x y).1 - CENTER_X cv = t * (x - CENTER_X cv) ∧
      (clampToTrack realMath cv x y).2 - CENTER_Y cv = t * (y - CENTER_Y cv) := by
  have hr : radius (CENTER_X cv) (CENTER_Y cv) (x, y)
      = Real.sqrt ((x - CENTER_X cv) * (x - CENTER_X cv) + (y - CENTER_Y cv) * (y - CENTER_Y cv)) := rfl
  simp only [OUTER_R] at *
  have h250 : radius (CENTER_X cv) (CENTER_Y cv) (x, y) > 250 := by linarith
  have hpos : 0 < radius (CENTER_X cv) (CENTER_Y cv) (x, y) := by linarith
  rw [clampToTrack_far cv x y h250]
  refine ⟨?_, 250 / radius (CENTER_X cv) (CENTER_Y cv) (x, y), by positivity, by ring, by ring⟩
  rw [radius_scaled _ _ _ _ _ (by positivity), ← hr]
  field_simp
  norm_num

/-- Claim C2, at the point `(700, 300)` of an `800 x 600` canvas, which is at
distance `300` from the centre `(400, 300)`. -/
theorem clampToTrack_outside_outer_witness :
    radius (CENTER_X (⟨800, 600⟩ : Canvas ℝ)) (CENTER_Y (⟨800, 600⟩ : Canvas ℝ)) (700, 300) > OUTER_R ∧
    radius (CENTER_X (⟨800, 600⟩ : Canvas ℝ)) (CENTER_Y (⟨800, 600⟩ : Canvas ℝ))
      (clampToTrack realMath ⟨800, 600⟩ 700 300) = OUTER_R - 10 :=
  have h : radius (CENTER_X (⟨800, 600⟩ : Canvas ℝ)) (CENTER_Y (⟨800, 600⟩ : Canvas ℝ)) (700, 300)
      > OUTER_R := by
    unfold radius
    simp only [CENTER_X, CENTER_Y, OUTER_R]
    rw [gt_iff_lt, Real.lt_sqrt (by norm_num)]
    norm_num
  ⟨h, (clampToTrack_outside_outer ⟨800, 600⟩ 700 300 h).1⟩

/-- Claim C3, at the failing input. The track centre is inside the inner hole
(distance `0 < INNER_R`), and `clampToTrack` returns the centre itself: the
zero offset is multiplied by `130 / 0.0001`, so the result is at distance `0`
from the centre, not at `INNER_R + 10 = 130`. -/
theorem clampToTrack_center_stays (cv : Canvas ℝ) :
    radius (CENTER_X cv) (CENTER_Y cv) (CENTER_X cv, CENTER_Y cv) < INNER_R ∧
    clampToTrack realMath cv (CENTER_X cv) (CENTER_Y cv) = (CENTER_X cv, CENTER_Y cv) ∧
    radius (CENTER_X cv) (CENTER_Y cv) (clampToTrack realMath cv (CENTER_X cv) (CENTER_Y cv)) = 0 ∧
    radius (CENTER_X cv) (CENTER_Y cv) (clampToTrack realMath cv (CENTER_X cv) (CENTER_Y cv))
      ≠ INNER_R + 10 := by
  have hc : clampToTrack realMath cv (CENTER_X cv) (CENTER_Y cv) = (CENTER_X cv, CENTER_Y cv) := by
    unfold clampToTrack
    simp only [realMath, OUTER_R, INNER_R]
    norm_num
  rw [hc, radius_center]
  refine ⟨by simp only [INNER_R]; norm_num, rfl, rfl, ?_⟩
  simp only [INNER_R]; norm_num

/-- Claim C4. For every real angle `a`, `normAngle a` lies in `[0, 2π)` and
`normAngle a - a` is an integer multiple of `2π`, the operator `%` being the
truncated remainder `jsMod`. -/
theorem normAngle_range_and_congruence (a : ℝ) :
    0 ≤ normAngle realMath a ∧ normAngle realMath a < 2 * Real.pi ∧
    ∃ k : ℤ, normAngle realMath a - a = (k : ℝ) * (2 * Real.pi) := by
  have hT : 0 < Real.pi * 2 := by positivity
  unfold normAngle
  simp only [realMath]
  rcases le_or_lt 0 a with ha | ha
  · obtain ⟨e, h0, h1⟩ := jsMod_of_nonneg a (Real.pi * 2) hT ha
    rw [if_neg (not_lt.mpr h0)]
    refine ⟨h0, by linarith, -⌊a / (Real.pi * 2)⌋, ?_⟩
    rw [e]; push_cast; ring
  · obtain ⟨e, h0, h1⟩ := jsMod_of_neg a (Real.pi * 2) hT ha
    by_cases hv : jsMod a (Real.pi * 2) < 0
    · rw [if_pos hv]
      refine ⟨by linarith, by linarith, 1 - ⌈a / (Real.pi * 2)⌉, ?_⟩
      rw [e]; push_cast; ring
    · rw [if_neg hv]
      refine ⟨not_lt.mp hv, by linarith, -⌈a / (Real.pi * 2)⌉, ?_⟩
      rw [e]; push_cast; ring

/-! ## Claims on the simulation -/

/-- Claim C1. Annulus containment is an invariant of the simulation.  The
position stored by the connection handler is at distance `190` from the
server's track centre `(400, 300)`, hence in the annulus between `INNER_R = 120`
and `OUTER_R = 260`; and for every vehicle whose position lies in the annulus
around the client's track centre, and every state of the keys and of
`boostClicks`, the position after one tick of `gameLoop` lies in the annulus
again. -/
theorem annulus_containment :
    (∀ (players : Registry ℝ) (socketId : String) (rnd : ℝ),
      ∃ (v : Vehicle ℝ) (px py : ℝ),
        Registry.get (onConnection realMath players socketId rnd) socketId = some v ∧
        v.x = JsVal.num px ∧ v.y = JsVal.num py ∧
        radius 400 300 (px, py) = 190 ∧ inAnnulus 400 300 (px, py)) ∧
    (∀ (cv : Canvas ℝ) (now : ℤ) (c : Client ℝ) (car : Car ℝ),
      c.myCar = some car →
      inAnnulus (CENTER_X cv) (CENTER_Y cv) (car.x, car.y) →
      ∃ car' : Car ℝ, (gameLoop realMath cv now c).1.myCar = some car' ∧
        inAnnulus (CENTER_X cv) (CENTER_Y cv) (car'.x, car'.y)) := by
  constructor
  · intro players socketId rnd
    have hr : radius 400 300
        (400 + Real.cos (-Real.pi / 2 + jsMod ((players.length : ℝ) * 0.25) (Real.pi * 2)) * 190,
         300 + Real.sin (-Real.pi / 2 + jsMod ((players.length : ℝ) * 0.25) (Real.pi * 2)) * 190)
        = 190 := by
      rw [radius_scaled _ _ _ _ _ (by norm_num)]
      have h1 : Real.cos (-Real.pi / 2 + jsMod ((players.length : ℝ) * 0.25) (Real.pi * 2)) *
          Real.cos (-Real.pi / 2 + jsMod ((players.length : ℝ) * 0.25) (Real.pi * 2)) +
          Real.sin (-Real.pi / 2 + jsMod ((players.length : ℝ) * 0.25) (Real.pi * 2)) *
          Real.sin (-Real.pi / 2 + jsMod ((players.length : ℝ) * 0.25) (Real.pi * 2)) = 1 := by
        rw [← sq, ← sq]; exact Real.cos_sq_add_sin_sq _
      rw [h1, Real.sqrt_one, one_mul]
    refine ⟨spawnVehicle realMath players.length socketId rnd, _, _,
      Registry.get_put_self _ _ _, rfl, rfl, hr, ?_⟩
    unfold inAnnulus
    simp only [realMath]
    rw [hr]
    simp only [INNER_R, OUTER_R]
    constructor <;> norm_num
  · intro cv now c car hc hin
    refine ⟨(driveCar realMath cv c.keys c.boostClicks car).1, ?_, ?_⟩
    · simp only [gameLoop, hc]
    · obtain ⟨hlo, hhi⟩ := applyControls_speed c.keys c.boostClicks car
      have hpos := moved_radius_pos (CENTER_X cv) (CENTER_Y cv) car.x car.y
        (applyControls c.keys c.boostClicks car).1 (applyControls c.keys c.boostClicks car).2
        (by simpa only [INNER_R] using hin.1) hlo hhi
      obtain ⟨h130, h250⟩ := clampToTrack_radius cv _ _ hpos
      unfold inAnnulus
      simp only [INNER_R, OUTER_R]
      exact ⟨by simp only [driveCar, realMath] at *; linarith,
        by simp only [driveCar, realMath] at *; linarith⟩

/-- Claim C1, for a car at rest `200` east of the centre of an `800 x 600`
canvas. -/
theorem annulus_containment_witness :
    inAnnulus (CENTER_X (⟨800, 600⟩ : Canvas ℝ)) (CENTER_Y (⟨800, 600⟩ : Canvas ℝ))
      ((carAtEast ⟨800, 600⟩ 6.27 : Car ℝ).x, (carAtEast ⟨800, 600⟩ 6.27 : Car ℝ).y) ∧
    ∃ car' : Car ℝ,
      (gameLoop realMath ⟨800, 600⟩ 0 (clientOf (carAtEast ⟨800, 600⟩ 6.27))).1.myCar = some car' ∧
      inAnnulus (CENTER_X (⟨800, 600⟩ : Canvas ℝ)) (CENTER_Y (⟨800, 600⟩ : Canvas ℝ))
        (car'.x, car'.y) :=
  have h : inAnnulus (CENTER_X (⟨800, 600⟩ : Canvas ℝ)) (CENTER_Y (⟨800, 600⟩ : Canvas ℝ))
      ((carAtEast ⟨800, 600⟩ 6.27 : Car ℝ).x, (carAtEast ⟨800, 600⟩ 6.27 : Car ℝ).y) := by
    unfold inAnnulus
    simp only [carAtEast]
    rw [radius_east _ _ 200 (by norm_num)]
    simp only [INNER_R, OUTER_R]
    constructor <;> norm_num
  ⟨h, annulus_containment.2 ⟨800, 600⟩ 0 (clientOf (carAtEast ⟨800, 600⟩ 6.27))
    (carAtEast ⟨800, 600⟩ 6.27) rfl h⟩

/-- Claim C5. For every vehicle state and every run of ticks of `gameLoop`,
whatever the keys, clicks and clock of each tick: `laps` does not decrease over
one tick, a `winner` that is true stays true over one tick, and both hold
between the start and the end of every run of ticks. -/
theorem laps_and_winner_monotone (cv : Canvas ℝ) (c : Client ℝ) (car : Car ℝ)
    (hc : c.myCar = some car) :
    (∀ now : ℤ, ∃ car' : Car ℝ, (gameLoop realMath cv now c).1.myCar = some car' ∧
      car.laps ≤ car'.laps ∧ (car.winner = true → car'.winner = true)) ∧
    (∀ inputs : List (ℤ × Keys × ℕ), ∃ car' : Car ℝ,
      (runTicks realMath cv inputs c).myCar = some car' ∧
      car.laps ≤ car'.laps ∧ (car.winner = true → car'.winner = true)) := by
  constructor
  · intro now
    obtain ⟨hl, hw⟩ := driveCar_monotone cv c.keys c.boostClicks car
    exact ⟨_, gameLoop_myCar cv now c car hc, hl, hw⟩
  · intro inputs
    exact runTicks_monotone cv inputs c car hc

/-- Claim C5, for a client driving a car at rest on an `800 x 600` canvas. -/
theorem laps_and_winner_monotone_witness :
    (clientOf (carAtEast ⟨800, 600⟩ 6.27 : Car ℝ)).myCar = some (carAtEast ⟨800, 600⟩ 6.27) ∧
    ∀ inputs : List (ℤ × Keys × ℕ), ∃ car' : Car ℝ,
      (runTicks realMath ⟨800, 600⟩ inputs (clientOf (carAtEast ⟨800, 600⟩ 6.27))).myCar
        = some car' ∧
      (carAtEast ⟨800, 600⟩ 6.27 : Car ℝ).laps ≤ car'.laps ∧
      ((carAtEast ⟨800, 600⟩ 6.27 : Car ℝ).winner = true → car'.winner = true) :=
  ⟨rfl, (laps_and_winner_monotone ⟨800, 600⟩ (clientOf (carAtEast ⟨800, 600⟩ 6.27))
    (carAtEast ⟨800, 600⟩ 6.27) rfl).2⟩

/-- Claim C6, at the failing input. `carBeforeSeam` sits just before the seam
`2π` of the normalized track angle, a quarter of a turn past the start line,
and its stored sample is the normalized angle of its position.  One tick of
`gameLoop` moves it by `1` to track angle `0`: the two samples are less than
half a turn apart, the start angle `normAngle(START_ANGLE) = 3π/2` is not on
the short arc between them, and yet the test fires and the tick counts a
lap. -/
theorem lap_counted_at_angle_seam (cv : Canvas ℝ) :
    (carBeforeSeam realMath cv).lastAngle =
      normAngle realMath (realMath.atan2 ((carBeforeSeam realMath cv).y - CENTER_Y cv)
        ((carBeforeSeam realMath cv).x - CENTER_X cv)) ∧
    (0 ≤ (carBeforeSeam realMath cv).lastAngle ∧
      (carBeforeSeam realMath cv).lastAngle < 2 * Real.pi) ∧
    (gameLoop realMath cv 0 (clientOf (carBeforeSeam realMath cv))).1.myCar.map Car.lastAngle
      = some 0 ∧
    lessThanHalfTurn (carBeforeSeam realMath cv).lastAngle 0 ∧
    ¬ onShortArc (carBeforeSeam realMath cv).lastAngle 0 (normAngle realMath (START_ANGLE realMath)) ∧
    lapCrossed realMath (carBeforeSeam realMath cv).lastAngle 0 = true ∧
    (gameLoop realMath cv 0 (clientOf (carBeforeSeam realMath cv))).1.myCar.map Car.laps
      = some ((carBeforeSeam realMath cv).laps + 1) := by
  obtain ⟨hs, hs0, hs1⟩ := sample_before_seam
  have hpi := Real.pi_gt_three
  have hl : (carBeforeSeam realMath cv).lastAngle = normAngle realMath (realMath.atan2 (-1) 200) :=
    rfl
  have hg : (gameLoop realMath cv 0 (clientOf (carBeforeSeam realMath cv))).1.myCar
      = some (driveCar realMath cv noKeys 0 (carBeforeSeam realMath cv)).1 :=
    gameLoop_myCar cv 0 (clientOf (carBeforeSeam realMath cv)) (carBeforeSeam realMath cv) rfl
  have hd := driveCar_carBeforeSeam cv
  have hpos : 0 < normAngle realMath (realMath.atan2 (-1) 200) := by linarith
  refine ⟨?_, ⟨by rw [hl]; linarith, by rw [hl]; linarith⟩, ?_, ?_, ?_, ?_, ?_⟩
  · simp [carBeforeSeam]
  · rw [hg, hd]; rfl
  · right
    rw [hl, sub_zero, abs_of_pos hpos]
    linarith
  · rw [normAngle_start, hl]
    unfold onShortArc
    rw [sub_zero, abs_of_pos hpos]
    rintro (⟨h, _⟩ | ⟨_, h | h⟩)
    · linarith
    · rw [min_eq_right hpos.le] at h; linarith
    · rw [max_eq_left hpos.le] at h; linarith
  · rw [hl]
    unfold lapCrossed
    rw [normAngle_start]
    simp only [Bool.and_eq_true, decide_eq_true_eq]
    constructor <;> linarith
  · rw [hg, hd]; rfl

/-- Claim C7. For every two vehicles `p` and `q` (lap counts are natural
numbers), the angular term of the progress score lies in `[0, 100000)`, and
if `p.laps > q.laps` then `computeProgress p > computeProgress q`, wherever
the two vehicles are. -/
theorem progress_orders_by_laps (cv : Canvas ℝ) (p q : Car ℝ) :
    (0 ≤ computeProgress realMath cv p - (p.laps : ℤ) * 100000 ∧
      computeProgress realMath cv p - (p.laps : ℤ) * 100000 < 100000) ∧
    (p.laps > q.laps → computeProgress realMath cv p > computeProgress realMath cv q) := by
  obtain ⟨f, hf, hf0, hf1⟩ := computeProgress_angular cv p
  obtain ⟨g, hg, hg0, hg1⟩ := computeProgress_angular cv q
  refine ⟨⟨by omega, by omega⟩, ?_⟩
  intro h
  rw [hf, hg]
  have : (q.laps : ℤ) + 1 ≤ (p.laps : ℤ) := by exact_mod_cast h
  omega

/-- Claim C7, for a car with one lap against the same car with none. -/
theorem progress_orders_by_laps_witness :
    ({ carAtEast ⟨800, 600⟩ 0 with laps := 1 } : Car ℝ).laps > (carAtEast ⟨800, 600⟩ 0 : Car ℝ).laps ∧
    computeProgress realMath ⟨800, 600⟩ ({ carAtEast ⟨800, 600⟩ 0 with laps := 1 } : Car ℝ)
      > computeProgress realMath ⟨800, 600⟩ (carAtEast ⟨800, 600⟩ 0 : Car ℝ) :=
  ⟨Nat.one_pos, (progress_orders_by_laps ⟨800, 600⟩ { carAtEast ⟨800, 600⟩ 0 with laps := 1 }
    (carAtEast ⟨800, 600⟩ 0)).2 Nat.one_pos⟩

/-! ## Claims on the registry and on the protocol -/

/-- Claim C8. For every registry, every connection id without an entry in it
and every `move` payload (also `null` or `undefined`), the `move` listener
returns normally and leaves `players` as it was. -/
theorem move_unregistered_noop (players : Registry ℝ) (socketId : String)
    (data : Option (MoveData ℝ)) (h : Registry.get players socketId = none) :
    onMove players socketId data = Except.ok players := by
  unfold onMove
  rw [h]

/-- Claim C8, for the id `a` in a registry that holds only `b`. -/
theorem move_unregistered_noop_witness :
    Registry.get ([("b", sampleVehicle)] : Registry ℝ) "a" = none ∧
    onMove ([("b", sampleVehicle)] : Registry ℝ) "a" (some emptyPayload)
      = Except.ok [("b", sampleVehicle)] :=
  have h : Registry.get ([("b", sampleVehicle)] : Registry ℝ) "a" = none := by
    simp [Registry.get]
  ⟨h, move_unregistered_noop _ "a" (some emptyPayload) h⟩

/-- Claim C9 fails as stated. For the registered vehicle `sampleVehicle` and the
payload `{}`, the `move` listener overwrites `x`, `y`, `angle`, `speed`, `laps`
and `winner` with `undefined`; only `name` and `lastAngle` keep their values. -/
theorem move_payload_without_x_overwrites :
    onMove ([("b", sampleVehicle)] : Registry ℝ) "b" (some emptyPayload)
      = Except.ok [("b", { (sampleVehicle : Vehicle ℝ) with
          x := JsVal.undefined, y := JsVal.undefined, angle := JsVal.undefined,
          speed := JsVal.undefined, laps := JsVal.undefined, winner := JsVal.undefined })] ∧
    (sampleVehicle : Vehicle ℝ).x = JsVal.num 590 ∧
    (JsVal.undefined : JsVal ℝ) ≠ JsVal.num 590 := by
  refine ⟨?_, rfl, by simp⟩
  simp [onMove, Registry.get, Registry.put, sampleVehicle, emptyPayload, JsVal.or, JsVal.truthy]

/-- Claim C9, amended. For every registered vehicle and every `move` payload
that is an object, an absent `name` or `lastAngle` leaves the stored `name` or
`lastAngle` at its previous value, while an absent `x`, `y`, `angle`, `speed`,
`laps` or `winner` is stored as `undefined`; `id` and `color` are kept. -/
theorem move_absent_fields (players : Registry ℝ) (socketId : String) (v : Vehicle ℝ)
    (d : MoveData ℝ) (h : Registry.get players socketId = some v) :
    ∃ v' : Vehicle ℝ,
      onMove players socketId (some d) = Except.ok (Registry.put players socketId v') ∧
      Registry.get (Registry.put players socketId v') socketId = some v' ∧
      (d.name = JsVal.undefined → v'.name = v.name) ∧
      (d.lastAngle = JsVal.undefined → v'.lastAngle = v.lastAngle) ∧
      (d.x = JsVal.undefined → v'.x = JsVal.undefined) ∧
      (d.y = JsVal.undefined → v'.y = JsVal.undefined) ∧
      (d.angle = JsVal.undefined → v'.angle = JsVal.undefined) ∧
      (d.speed = JsVal.undefined → v'.speed = JsVal.undefined) ∧
      (d.laps = JsVal.undefined → v'.laps = JsVal.undefined) ∧
      (d.winner = JsVal.undefined → v'.winner = JsVal.undefined) ∧
      v'.id = v.id ∧ v'.color = v.color := by
  refine ⟨{ v with x := d.x, y := d.y, angle := d.angle, speed := d.speed, laps := d.laps,
                   winner := d.winner, name := JsVal.or d.name v.name,
                   lastAngle := JsVal.or d.lastAngle v.lastAngle }, ?_, Registry.get_put_self _ _ _,
    ?_, ?_, fun e => e, fun e => e, fun e => e, fun e => e, fun e => e, fun e => e, rfl, rfl⟩
  · unfold onMove
    rw [h]
  · intro e
    simp [e, JsVal.or, JsVal.truthy]
  · intro e
    simp [e, JsVal.or, JsVal.truthy]

/-- Claim C9 amended, for `sampleVehicle` and the payload `{}`. -/
theorem move_absent_fields_witness :
    Registry.get ([("b", sampleVehicle)] : Registry ℝ) "b" = some sampleVehicle ∧
    ∃ v' : Vehicle ℝ,
      onMove ([("b", sampleVehicle)] : Registry ℝ) "b" (some emptyPayload)
        = Except.ok (Registry.put [("b", sampleVehicle)] "b" v') ∧
      v'.name = (sampleVehicle : Vehicle ℝ).name ∧
      v'.lastAngle = (sampleVehicle : Vehicle ℝ).lastAngle ∧
      v'.x = JsVal.undefined :=
  have h : Registry.get ([("b", sampleVehicle)] : Registry ℝ) "b" = some sampleVehicle := by
    simp [Registry.get]
  match move_absent_fields [("b", sampleVehicle)] "b" sampleVehicle emptyPayload h with
  | ⟨v', h1, _, h3, h4, h5, _⟩ => ⟨h, v', h1, h3 rfl, h4 rfl, h5 rfl⟩

/-- Claim C10 fails as stated. When exactly `SEND_INTERVAL = 50` ms have elapsed
since the last push, `sendMyStateIfNeeded` emits nothing and keeps
`lastSend`. -/
theorem send_at_exactly_interval_dropped :
    (50 : ℤ) - 0 ≥ SEND_INTERVAL ∧
    sendMyStateIfNeeded 50 0 (sampleMsg : MoveMsg ℝ) = (none, 0) := by
  constructor
  · simp [SEND_INTERVAL]
  · simp [sendMyStateIfNeeded, SEND_INTERVAL]

/-- Claim C10, amended. `sendMyStateIfNeeded` transmits the state whenever more
than `SEND_INTERVAL = 50` ms have elapsed since the last transmitted push: for
every `lastSend` and `now` with `now - lastSend > 50` the message is emitted
and `lastSend` becomes `now`; at exactly `50` nothing is emitted and `lastSend`
is kept. -/
theorem send_after_interval (now lastSend : ℤ) (state : MoveMsg ℝ) :
    (now - lastSend > SEND_INTERVAL →
      sendMyStateIfNeeded now lastSend state = (some state, now)) ∧
    (now - lastSend = SEND_INTERVAL →
      sendMyStateIfNeeded now lastSend state = (none, lastSend)) := by
  unfold sendMyStateIfNeeded
  constructor
  · intro h
    rw [if_pos h]
  · intro h
    rw [if_neg (by rw [h]; exact lt_irrefl _)]

/-- Claim C10 amended, at `51` ms and at `50` ms after a push at time `0`. -/
theorem send_after_interval_witness :
    ((51 : ℤ) - 0 > SEND_INTERVAL ∧
      sendMyStateIfNeeded 51 0 (sampleMsg : MoveMsg ℝ) = (some sampleMsg, 51)) ∧
    ((50 : ℤ) - 0 = SEND_INTERVAL ∧
      sendMyStateIfNeeded 50 0 (sampleMsg : MoveMsg ℝ) = (none, 0)) :=
  ⟨⟨by decide, (send_after_interval 51 0 sampleMsg).1 (by decide)⟩,
   ⟨by decide, (send_after_interval 50 0 sampleMsg).2 (by decide)⟩⟩

/-! ## Claims on the lap counter, the boost and the registry -/

/-- Claim C11 fails as stated. A vehicle whose sample advances by the constant
step `2π/3` from the sample `1/2` covers one full revolution in three ticks
without any sample being `0`, and no lap is counted: the step that passes the
seam starts from `1/2 + 4π/3`, which is not above `ref + 0.01`. -/
theorem large_step_counts_no_lap :
    (3 : ℝ) * |2 * Real.pi / 3| = 2 * Real.pi ∧
    (∀ k : ℕ, k < 3 → normAngle realMath (1 / 2 + (k : ℝ) * (2 * Real.pi / 3)) ≠ 0) ∧
    (detectLaps realMath (steadyTicks realMath (fun _ => 0) (1 / 2) (2 * Real.pi / 3) 0 3)
      ⟨0, false, 1 / 2⟩).laps = 0 := by
  have hpi := Real.pi_gt_three
  have hpi' := Real.pi_lt_d2
  have s1 : normAngle realMath (1 / 2 + ((0 + 1 : ℕ) : ℝ) * (2 * Real.pi / 3))
      = 1 / 2 + 2 * Real.pi / 3 := by
    rw [normAngle_of_mem _ (by positivity) (by push_cast; linarith)]
    push_cast; ring
  have s2 : normAngle realMath (1 / 2 + ((0 + 1 + 1 : ℕ) : ℝ) * (2 * Real.pi / 3))
      = 1 / 2 + 4 * Real.pi / 3 := by
    rw [normAngle_of_mem _ (by positivity) (by push_cast; linarith)]
    push_cast; ring
  have s3 : normAngle realMath (1 / 2 + ((0 + 1 + 1 + 1 : ℕ) : ℝ) * (2 * Real.pi / 3))
      = 1 / 2 := by
    rw [normAngle_of_second_turn _ (by push_cast; linarith) (by push_cast; linarith)]
    push_cast; ring
  refine ⟨?_, ?_, ?_⟩
  · rw [abs_of_pos (by positivity)]; ring
  · intro k hk
    have hk' : (k : ℝ) ≤ 2 := by exact_mod_cast Nat.lt_succ_iff.mp hk
    have h0 : (0 : ℝ) ≤ (k : ℝ) := Nat.cast_nonneg k
    rw [normAngle_of_mem _ (by positivity) (by nlinarith)]
    positivity
  · have t1 : detectLap realMath 0 (1 / 2 + 2 * Real.pi / 3) ⟨0, false, 1 / 2⟩
        = ⟨0, false, 1 / 2 + 2 * Real.pi / 3⟩ := by
      apply detectLap_of_not_crossed
      rw [prevAngle_of_sample _ _ (by norm_num) (by linarith)]
      exact lapCrossed_false _ _ (Or.inl (by linarith))
    have t2 : detectLap realMath 0 (1 / 2 + 4 * Real.pi / 3) ⟨0, false, 1 / 2 + 2 * Real.pi / 3⟩
        = ⟨0, false, 1 / 2 + 4 * Real.pi / 3⟩ := by
      apply detectLap_of_not_crossed
      rw [prevAngle_of_sample _ _ (by positivity) (by linarith)]
      exact lapCrossed_false _ _ (Or.inl (by linarith))
    have t3 : detectLap realMath 0 (1 / 2) ⟨0, false, 1 / 2 + 4 * Real.pi / 3⟩
        = ⟨0, false, 1 / 2⟩ := by
      apply detectLap_of_not_crossed
      rw [prevAngle_of_sample _ _ (by positivity) (by linarith)]
      exact lapCrossed_false _ _ (Or.inl (by linarith))
    simp only [steadyTicks, detectLaps]
    rw [s1, s2, s3, t1, t2, t3]

/-- Claim C11, amended. For a vehicle whose normalized angular sample advances
by a constant step `δ` of either rotational sense, with `0 < |δ| < π/2 - 0.01`,
none of whose stored samples is exactly `0`: over every run of `n` consecutive
ticks with `n |δ| = 2π`, that is exactly one full revolution, the lap detection
of `gameLoop` increments `laps` exactly once. -/
theorem one_lap_per_revolution (heading : ℕ → ℝ) (a δ : ℝ) (n laps : ℕ) (winner : Bool)
    (ha0 : 0 ≤ a) (ha1 : a < 2 * Real.pi) (hδ : δ ≠ 0) (hstep : |δ| < Real.pi / 2 - 0.01)
    (hn : (n : ℝ) * |δ| = 2 * Real.pi)
    (hz : ∀ k : ℕ, k < n → normAngle realMath (a + (k : ℝ) * δ) ≠ 0) :
    (detectLaps realMath (steadyTicks realMath heading a δ 0 n) ⟨laps, winner, a⟩).laps
      = laps + 1 := by
  have hpi := Real.pi_gt_three
  have hnpos : 0 < n := by
    rcases Nat.eq_zero_or_pos n with h | h
    · rw [h, Nat.cast_zero, zero_mul] at hn
      linarith
    · exact h
  have ha : normAngle realMath (a + ((0 : ℕ) : ℝ) * δ) = a := by
    rw [Nat.cast_zero, zero_mul, add_zero]
    exact normAngle_of_mem a ha0 ha1
  have hapos : 0 < a := by
    have h := hz 0 hnpos
    rw [ha] at h
    exact lt_of_le_of_ne ha0 (Ne.symm h)
  rcases lt_or_gt_of_ne hδ with hneg | hpos
  · obtain ⟨ε, rfl⟩ : ∃ ε : ℝ, δ = -ε := ⟨-δ, by ring⟩
    have hε0 : 0 < ε := by linarith
    rw [abs_neg, abs_of_pos hε0] at hstep hn
    have h := backward_run heading a ε n hapos ha1 hε0 hstep hn hz n 0 ⟨laps, winner, a⟩
      (by omega) ha.symm
    rw [h]
    simp only [Nat.cast_zero, zero_mul, add_zero]
    rw [hn]
    by_cases hc : 3 * Real.pi / 2 + 0.01 < a
    · rw [if_pos ⟨hc, by linarith⟩, if_neg (fun h' => by linarith [h'.2])]
    · rw [if_neg (fun h' => hc h'.1), if_pos ⟨by linarith, by linarith⟩]
  · rw [abs_of_pos hpos] at hstep hn
    have h := forward_run heading a δ n hapos ha1 hpos hstep hn hz n 0 ⟨laps, winner, a⟩
      (by omega) ha.symm
    rw [h]
    simp only [Nat.cast_zero, zero_mul, add_zero, Nat.zero_add]
    rw [hn, if_pos ⟨ha1, by linarith⟩]

/-- Claim C11 amended, for the step `π/4` from the sample `π/8`, in eight
ticks. -/
theorem one_lap_per_revolution_witness :
    ((0 : ℝ) ≤ Real.pi / 8 ∧ Real.pi / 8 < 2 * Real.pi ∧ Real.pi / 4 ≠ 0 ∧
      |Real.pi / 4| < Real.pi / 2 - 0.01 ∧ ((8 : ℕ) : ℝ) * |Real.pi / 4| = 2 * Real.pi ∧
      ∀ k : ℕ, k < 8 → normAngle realMath (Real.pi / 8 + (k : ℝ) * (Real.pi / 4)) ≠ 0) ∧
    (detectLaps realMath (steadyTicks realMath (fun _ => 0) (Real.pi / 8) (Real.pi / 4) 0 8)
      ⟨2, false, Real.pi / 8⟩).laps = 2 + 1 := by
  have hpi := Real.pi_gt_three
  have h1 : (0 : ℝ) ≤ Real.pi / 8 := by positivity
  have h2 : Real.pi / 8 < 2 * Real.pi := by linarith
  have h3 : Real.pi / 4 ≠ 0 := by positivity
  have h4 : |Real.pi / 4| < Real.pi / 2 - 0.01 := by
    rw [abs_of_pos (by positivity)]; linarith
  have h5 : ((8 : ℕ) : ℝ) * |Real.pi / 4| = 2 * Real.pi := by
    rw [abs_of_pos (by positivity)]; push_cast; ring
  have h6 : ∀ k : ℕ, k < 8 → normAngle realMath (Real.pi / 8 + (k : ℝ) * (Real.pi / 4)) ≠ 0 := by
    intro k hk
    have hk' : (k : ℝ) ≤ 7 := by exact_mod_cast Nat.lt_succ_iff.mp hk
    have h0 : (0 : ℝ) ≤ (k : ℝ) := Nat.cast_nonneg k
    rw [normAngle_of_mem _ (by positivity) (by nlinarith)]
    positivity
  exact ⟨⟨h1, h2, h3, h4, h5, h6⟩,
    one_lap_per_revolution (fun _ => 0) (Real.pi / 8) (Real.pi / 4) 8 2 false h1 h2 h3 h4 h5 h6⟩

/-- Claim C14. For every run of ticks of `gameLoop` from a vehicle with
`laps = 0` and `winner = false`: after the run `winner` is true if and only if
`laps >= TOTAL_LAPS = 3`, and one more tick raises `laps` by at most one; so
`winner` becomes true at the tick that counts the third lap and is false for a
vehicle with two laps. -/
theorem winner_iff_total_laps (cv : Canvas ℝ) (c : Client ℝ) (car : Car ℝ)
    (hc : c.myCar = some car) (hl : car.laps = 0) (hw : car.winner = false)
    (inputs : List (ℤ × Keys × ℕ)) :
    ∃ car' : Car ℝ, (runTicks realMath cv inputs c).myCar = some car' ∧
      (car'.winner = true ↔ car'.laps ≥ TOTAL_LAPS) ∧
      (car'.laps = 2 → car'.winner = false) ∧
      ∀ (now : ℤ) (keys : Keys) (clicks : ℕ), ∃ car'' : Car ℝ,
        (runTicks realMath cv (inputs ++ [(now, keys, clicks)]) c).myCar = some car'' ∧
        car'.laps ≤ car''.laps ∧ car''.laps ≤ car'.laps + 1 ∧
        (car''.winner = true ↔ car''.laps ≥ TOTAL_LAPS) := by
  have h0 : car.winner = true ↔ car.laps ≥ TOTAL_LAPS := by
    rw [hl, hw]; simp [TOTAL_LAPS]
  obtain ⟨car', h1, h2⟩ := runTicks_winner_iff cv inputs c car hc h0
  refine ⟨car', h1, h2, ?_, ?_⟩
  · intro h
    cases hw' : car'.winner
    · rfl
    · have := h2.mp hw'
      simp only [TOTAL_LAPS] at this
      omega
  · intro now keys clicks
    rw [runTicks_append]
    simp only [runTicks]
    have hstep := gameLoop_myCar cv now
      { runTicks realMath cv inputs c with
        keys := keys, boostClicks := (runTicks realMath cv inputs c).boostClicks + clicks } car' h1
    obtain ⟨g1, g2, g3⟩ := driveCar_winner_iff cv keys
      ((runTicks realMath cv inputs c).boostClicks + clicks) car' h2
    exact ⟨_, hstep, g3, g2, g1⟩

/-- Claim C14, for a client driving a car at rest on an `800 x 600` canvas. -/
theorem winner_iff_total_laps_witness :
    ((clientOf (carAtEast ⟨800, 600⟩ 6.27 : Car ℝ)).myCar = some (carAtEast ⟨800, 600⟩ 6.27) ∧
      (carAtEast ⟨800, 600⟩ 6.27 : Car ℝ).laps = 0 ∧
      (carAtEast ⟨800, 600⟩ 6.27 : Car ℝ).winner = false) ∧
    ∃ car' : Car ℝ,
      (runTicks realMath ⟨800, 600⟩ [(0, noKeys, 0), (16, noKeys, 1)]
        (clientOf (carAtEast ⟨800, 600⟩ 6.27))).myCar = some car' ∧
      (car'.winner = true ↔ car'.laps ≥ TOTAL_LAPS) := by
  refine ⟨⟨rfl, rfl, rfl⟩, ?_⟩
  obtain ⟨car', h1, h2, _⟩ := winner_iff_total_laps ⟨800, 600⟩
    (clientOf (carAtEast ⟨800, 600⟩ 6.27)) (carAtEast ⟨800, 600⟩ 6.27) rfl rfl rfl
    [(0, noKeys, 0), (16, noKeys, 1)]
  exact ⟨car', h1, h2⟩

/-- Claim C15. For every `lastSend` and every `now` with
`now - lastSend < SEND_INTERVAL = 50`, `sendMyStateIfNeeded` emits nothing and
keeps `lastSend`; a later call then behaves as if the dropped call had not
been made and emits nothing or its own argument.  In particular, of two pushes
`10` ms apart, the first being transmitted, the second is dropped. -/
theorem push_inside_window_dropped (now lastSend : ℤ) (state : MoveMsg ℝ)
    (h : now - lastSend < SEND_INTERVAL) :
    sendMyStateIfNeeded now lastSend state = (none, lastSend) ∧
    (∀ (later : ℤ) (state' : MoveMsg ℝ),
      sendMyStateIfNeeded later (sendMyStateIfNeeded now lastSend state).2 state'
        = sendMyStateIfNeeded later lastSend state' ∧
      ((sendMyStateIfNeeded later lastSend state').1 = none ∨
        (sendMyStateIfNeeded later lastSend state').1 = some state')) ∧
    (∀ (t t0 : ℤ) (first second : MoveMsg ℝ), t - t0 > SEND_INTERVAL →
      sendMyStateIfNeeded t t0 first = (some first, t) ∧
      sendMyStateIfNeeded (t + 10) (sendMyStateIfNeeded t t0 first).2 second = (none, t)) := by
  have hd : sendMyStateIfNeeded now lastSend state = (none, lastSend) := by
    unfold sendMyStateIfNeeded
    rw [if_neg (by omega)]
  refine ⟨hd, ?_, ?_⟩
  · intro later state'
    rw [hd]
    refine ⟨rfl, ?_⟩
    unfold sendMyStateIfNeeded
    split_ifs
    · right; rfl
    · left; rfl
  · intro t t0 first second ht
    have h1 : sendMyStateIfNeeded t t0 first = (some first, t) := by
      unfold sendMyStateIfNeeded
      rw [if_pos ht]
    refine ⟨h1, ?_⟩
    rw [h1]
    unfold sendMyStateIfNeeded
    rw [if_neg (by simp [SEND_INTERVAL])]

/-- Claim C15, for a push at time `60` that follows a push at time `50`. -/
theorem push_inside_window_dropped_witness :
    (60 : ℤ) - 50 < SEND_INTERVAL ∧
    sendMyStateIfNeeded 60 50 (sampleMsg : MoveMsg ℝ) = (none, 50) :=
  ⟨by decide, (push_inside_window_dropped 60 50 sampleMsg (by decide)).1⟩

/-- Claim C12 fails as stated. The connection handler run for the id `b`, which
holds a vehicle with two laps, stores a fresh vehicle with no lap under `b`. -/
theorem connection_overwrites_entry :
    Registry.get ([("b", sampleVehicle)] : Registry ℝ) "b" = some sampleVehicle ∧
    (sampleVehicle : Vehicle ℝ).laps = JsVal.num 2 ∧
    (Registry.get (onConnection realMath [("b", sampleVehicle)] "b" 0) "b").map Vehicle.laps
      = some (JsVal.num 0) ∧
    (JsVal.num 0 : JsVal ℝ) ≠ JsVal.num 2 := by
  refine ⟨by simp [Registry.get], rfl, ?_, by simp⟩
  unfold onConnection
  rw [Registry.get_put_self]
  rfl

/-- Claim C12, amended. For every registry that contains the id `c`, the
connection handler run for `c` does not fail: it replaces the vehicle stored
under `c` by the freshly spawned one (laps `0`, winner `false`, the name and
position of the spawn index `players.length`), and leaves the ids and the
vehicles of the other ids as they were. -/
theorem connection_replaces_entry (players : Registry ℝ) (c : String) (rnd : ℝ)
    (v : Vehicle ℝ) (h : Registry.get players c = some v) :
    Registry.get (onConnection realMath players c rnd) c
      = some (spawnVehicle realMath players.length c rnd) ∧
    (spawnVehicle realMath players.length c rnd).laps = JsVal.num 0 ∧
    (spawnVehicle realMath players.length c rnd).winner = JsVal.bool false ∧
    (spawnVehicle realMath players.length c rnd).name
      = JsVal.str ("Player" ++ toString (players.length + 1)) ∧
    (onConnection realMath players c rnd).map Prod.fst = players.map Prod.fst ∧
    ∀ d : String, d ≠ c →
      Registry.get (onConnection realMath players c rnd) d = Registry.get players d := by
  refine ⟨Registry.get_put_self _ _ _, rfl, rfl, rfl, Registry.put_keys _ _ _ v h, ?_⟩
  intro d hd
  exact Registry.get_put_other _ _ _ _ hd

/-- Claim C12 amended, for the id `b` of a registry that holds `sampleVehicle`
under `b`. -/
theorem connection_replaces_entry_witness :
    Registry.get ([("b", sampleVehicle)] : Registry ℝ) "b" = some sampleVehicle ∧
    Registry.get (onConnection realMath [("b", sampleVehicle)] "b" 0) "b"
      = some (spawnVehicle realMath 1 "b" 0) :=
  have h : Registry.get ([("b", sampleVehicle)] : Registry ℝ) "b" = some sampleVehicle := by
    simp [Registry.get]
  ⟨h, (connection_replaces_entry [("b", sampleVehicle)] "b" 0 sampleVehicle h).1⟩

/-- Claim C13, at the failing input. After one click and three ticks the boost
accumulator has gone `1`, `0.65`, `0.3`, `-0.05`: the decay step takes the
non-negative value `0.3` below zero, and the boost contribution
`min(boostClicks, 12) * 0.22` of the next tick is negative. -/
theorem boost_decays_below_zero (cv : Canvas ℝ) (car : Car ℝ) :
    (runTicks realMath cv [(0, noKeys, 1), (16, noKeys, 0)] (clientOf car)).boostClicks = 0.3 ∧
    (0 : ℝ) ≤ 0.3 ∧
    (driveCar realMath cv noKeys 0.3 car).2 = -0.05 ∧
    (runTicks realMath cv [(0, noKeys, 1), (16, noKeys, 0), (33, noKeys, 0)]
      (clientOf car)).boostClicks = -0.05 ∧
    (runTicks realMath cv [(0, noKeys, 1), (16, noKeys, 0), (33, noKeys, 0)]
      (clientOf car)).boostClicks < 0 ∧
    min (runTicks realMath cv [(0, noKeys, 1), (16, noKeys, 0), (33, noKeys, 0)]
      (clientOf car)).boostClicks 12 * 0.22 < 0 := by
  have h2 : (runTicks realMath cv [(0, noKeys, 1), (16, noKeys, 0)] (clientOf car)).boostClicks
      = 0.3 := by
    rw [runTicks_boostClicks cv _ (clientOf car) car rfl]
    simp only [List.foldl_cons, List.foldl_nil, clientOf]
    norm_num
  have h3 : (runTicks realMath cv [(0, noKeys, 1), (16, noKeys, 0), (33, noKeys, 0)]
      (clientOf car)).boostClicks = -0.05 := by
    rw [runTicks_boostClicks cv _ (clientOf car) car rfl]
    simp only [List.foldl_cons, List.foldl_nil, clientOf]
    norm_num
  refine ⟨h2, by norm_num, ?_, h3, ?_, ?_⟩
  · rw [driveCar_boost]; norm_num
  · rw [h3]; norm_num
  · rw [h3, min_eq_left (by norm_num)]; norm_num

/-- Claim C16, at the failing input. A `move` payload that supplies every
property, with `lastAngle: 0`, for a registered vehicle whose stored
`lastAngle` is `1`: `x`, `y`, `angle`, `speed`, `laps`, `winner` and `name` take
the supplied values, but the stored `lastAngle` stays `1`. -/
theorem move_supplied_zero_lastAngle_ignored :
    onMove ([("b", sampleVehicle)] : Registry ℝ) "b" (some (fullPayload "Ann" 0))
      = Except.ok [("b", { (sampleVehicle : Vehicle ℝ) with
          x := JsVal.num 600, y := JsVal.num 310, angle := JsVal.num 2, speed := JsVal.num 3,
          laps := JsVal.num 1, winner := JsVal.bool false, name := JsVal.str "Ann",
          lastAngle := JsVal.num 1 })] ∧
    (fullPayload "Ann" 0 : MoveData ℝ).lastAngle = JsVal.num 0 ∧
    (sampleVehicle : Vehicle ℝ).lastAngle = JsVal.num 1 ∧
    (JsVal.num 1 : JsVal ℝ) ≠ JsVal.num 0 := by
  refine ⟨?_, rfl, rfl, by simp⟩
  simp [onMove, Registry.get, Registry.put, sampleVehicle, fullPayload, JsVal.or, JsVal.truthy]

/-- Claim C17. For every registry, id `c` and string `n`: if `c` is registered
the `setName` listener stores the first 20 characters of `n` (all of `n` when
it has at most 20) as the name of `c`, keeps every other field of that vehicle
and leaves the ids and the vehicles of the other ids unchanged; if `c` is not
registered, the registry is unchanged. -/
theorem setName_truncates (players : Registry ℝ) (c n : String) :
    (∀ v : Vehicle ℝ, Registry.get players c = some v →
      Registry.get (onSetName players c n) c = some { v with name := JsVal.str (n.take 20) } ∧
      (onSetName players c n).map Prod.fst = players.map Prod.fst ∧
      ∀ d : String, d ≠ c → Registry.get (onSetName players c n) d = Registry.get players d) ∧
    (Registry.get players c = none → onSetName players c n = players) ∧
    (n.take 20).data = n.data.take 20 ∧
    (n.length ≤ 20 → n.take 20 = n) := by
  refine ⟨?_, ?_, (take20_spec n).1, (take20_spec n).2.2⟩
  · intro v h
    have e : onSetName players c n
        = Registry.put players c { v with name := JsVal.str (n.take 20) } := by
      unfold onSetName
      rw [h]
    rw [e]
    exact ⟨Registry.get_put_self _ _ _, Registry.put_keys _ _ _ v h,
      fun d hd => Registry.get_put_other _ _ _ _ hd⟩
  · intro h
    unfold onSetName
    rw [h]

/-- Claim C17, for the name `longName` of 21 characters sent by `b`, and for a
name sent by the unregistered `a`. -/
theorem setName_truncates_witness :
    (Registry.get ([("b", sampleVehicle)] : Registry ℝ) "b" = some sampleVehicle ∧
      Registry.get (onSetName ([("b", sampleVehicle)] : Registry ℝ) "b" longName) "b"
        = some { (sampleVehicle : Vehicle ℝ) with name := JsVal.str (longName.take 20) }) ∧
    (Registry.get ([("b", sampleVehicle)] : Registry ℝ) "a" = none ∧
      onSetName ([("b", sampleVehicle)] : Registry ℝ) "a" longName = [("b", sampleVehicle)]) :=
  have h : Registry.get ([("b", sampleVehicle)] : Registry ℝ) "b" = some sampleVehicle := by
    simp [Registry.get]
  have h' : Registry.get ([("b", sampleVehicle)] : Registry ℝ) "a" = none := by
    simp [Registry.get]
  ⟨⟨h, ((setName_truncates [("b", sampleVehicle)] "b" longName).1 sampleVehicle h).1⟩,
   ⟨h', (setName_truncates [("b", sampleVehicle)] "a" longName).2.1 h'⟩⟩

/-- Claim C19, at the failing input. A client connects as `a`, sends `setName`
with the 21 characters of `longName`, which the server cuts to 20, and then a
`move` message that carries the same name: the server stores all 21
characters. -/
theorem move_stores_long_name :
    longName.length = 21 ∧
    (Registry.get (serverRun realMath
        [ServerEvent.connection "a" 0, ServerEvent.setName "a" longName] ([] : Registry ℝ)) "a").map
      Vehicle.name = some (JsVal.str (longName.take 20)) ∧
    (longName.take 20).length = 20 ∧
    (Registry.get (serverRun realMath
        [ServerEvent.connection "a" 0, ServerEvent.setName "a" longName,
         ServerEvent.move "a" (fullPayload longName 1)] ([] : Registry ℝ)) "a").map
      Vehicle.name = some (JsVal.str longName) := by
  have hl : longName.length = 21 := by decide
  have ht : (longName.take 20).length = 20 := by
    rw [String.take_eq]
    show (longName.data.take 20).length = 20
    rw [List.length_take]
    decide
  have hne : longName ≠ "" := by decide
  have h1 : serverRun realMath [ServerEvent.connection "a" 0, ServerEvent.setName "a" longName]
      ([] : Registry ℝ)
      = [("a", { spawnVehicle realMath 0 "a" 0 with name := JsVal.str (longName.take 20) })] := by
    simp [serverRun, serverStep, onConnection, onSetName, Registry.get, Registry.put]
  have h2 : serverRun realMath [ServerEvent.connection "a" 0, ServerEvent.setName "a" longName,
      ServerEvent.move "a" (fullPayload longName 1)] ([] : Registry ℝ)
      = [("a", { spawnVehicle realMath 0 "a" 0 with
          x := JsVal.num 600, y := JsVal.num 310, angle := JsVal.num 2, speed := JsVal.num 3,
          laps := JsVal.num 1, winner := JsVal.bool false, name := JsVal.str longName,
          lastAngle := JsVal.num 1 })] := by
    simp [serverRun, serverStep, onConnection, onSetName, onMove, Registry.get, Registry.put,
      fullPayload, JsVal.or, JsVal.truthy, hne]
  refine ⟨hl, ?_, ht, ?_⟩
  · rw [h1]; simp [Registry.get]
  · rw [h2]; simp [Registry.get]

/-- Claim C18. For every run of ticks whose stored sample and whose new samples
all lie within `0.01` of `ref = normAngle(START_ANGLE)`, the test of the lap
detection is false for every pair of such samples, and `laps` and `winner` are
unchanged over the whole run. -/
theorem no_lap_within_tolerance (ticks : List (ℝ × ℝ)) (s : LapState ℝ)
    (hs : |s.lastAngle - normAngle realMath (START_ANGLE realMath)| ≤ 0.01)
    (ht : ∀ t ∈ ticks, |t.2 - normAngle realMath (START_ANGLE realMath)| ≤ 0.01) :
    (∀ prev curr : ℝ, |prev - normAngle realMath (START_ANGLE realMath)| ≤ 0.01 →
      |curr - normAngle realMath (START_ANGLE realMath)| ≤ 0.01 →
      lapCrossed realMath prev curr = false) ∧
    (detectLaps realMath ticks s).laps = s.laps ∧
    (detectLaps realMath ticks s).winner = s.winner := by
  have hpi := Real.pi_gt_three
  rw [normAngle_start] at hs
  simp only [normAngle_start] at ht ⊢
  constructor
  · intro prev curr hp _
    rw [lapCrossed_eq]
    have := (abs_le.mp hp).2
    simp only [Bool.and_eq_false_imp, decide_eq_true_eq, decide_eq_false_iff_not]
    intro h
    linarith
  · induction ticks generalizing s with
    | nil => exact ⟨rfl, rfl⟩
    | cons t rest ih =>
      obtain ⟨angle, curr⟩ := t
      have hp := abs_le.mp hs
      have hprev : prevAngle realMath angle s.lastAngle = s.lastAngle :=
        prevAngle_of_sample angle s.lastAngle (by linarith) (by linarith)
      have hno : lapCrossed realMath (prevAngle realMath angle s.lastAngle) curr = false := by
        rw [hprev, lapCrossed_eq]
        simp only [Bool.and_eq_false_imp, decide_eq_true_eq, decide_eq_false_iff_not]
        intro h
        linarith
      have hstep := detectLap_of_not_crossed angle curr s hno
      simp only [detectLaps]
      rw [hstep]
      have hc : |curr - 3 * Real.pi / 2| ≤ 0.01 := ht (angle, curr) (List.mem_cons_self _ _)
      exact ih ⟨s.laps, s.winner, curr⟩ hc (fun t h => ht t (List.mem_cons_of_mem _ h))

/-- Claim C18, for a car that goes back and forth across the start line by
`0.01`. -/
theorem no_lap_within_tolerance_witness :
    (detectLaps realMath
      [(0, normAngle realMath (START_ANGLE realMath) + 0.01),
       (0, normAngle realMath (START_ANGLE realMath) - 0.01),
       (0, normAngle realMath (START_ANGLE realMath) + 0.01)]
      ⟨2, false, normAngle realMath (START_ANGLE realMath) - 0.01⟩).laps = 2 := by
  have e : |(1 / 100 : ℝ)| ≤ 1 / 100 := le_of_eq (abs_of_pos (by norm_num))
  refine (no_lap_within_tolerance _
    ⟨2, false, normAngle realMath (START_ANGLE realMath) - 0.01⟩ ?_ ?_).2.1
  · simp only [sub_sub_cancel_left, abs_neg]
    norm_num
    exact e
  · intro t h
    simp only [List.mem_cons, List.mem_singleton, List.not_mem_nil, or_false] at h
    rcases h with h | h | h <;> rw [h] <;> simp <;> norm_num <;> exact e

/-- Claim C20. In a tick of `gameLoop` the previous sample of the lap detection
is `normAngle(lastAngle)` when the stored `lastAngle` is not `0`, and
`normAngle` of the heading after the turn when `lastAngle` is `0`.  For
`carOnSeam`, whose `lastAngle` is `0` and whose heading is `6`, the tick counts
a lap although `lastAngle > ref + 0.01` is false. -/
theorem prev_sample_falls_back_to_heading (cv : Canvas ℝ) :
    (∀ (keys : Keys) (b : ℝ) (car : Car ℝ), car.lastAngle ≠ 0 →
      prevAngle realMath (applyControls keys b car).1 car.lastAngle
        = normAngle realMath car.lastAngle ∧
      (driveCar realMath cv keys b car).1.laps =
        if lapCrossed realMath (normAngle realMath car.lastAngle)
            (driveCar realMath cv keys b car).1.lastAngle
        then car.laps + 1 else car.laps) ∧
    (∀ (keys : Keys) (b : ℝ) (car : Car ℝ), car.lastAngle = 0 →
      prevAngle realMath (applyControls keys b car).1 car.lastAngle
        = normAngle realMath (applyControls keys b car).1 ∧
      (driveCar realMath cv keys b car).1.laps =
        if lapCrossed realMath (normAngle realMath (applyControls keys b car).1)
            (driveCar realMath cv keys b car).1.lastAngle
        then car.laps + 1 else car.laps) ∧
    ((carOnSeam cv : Car ℝ).lastAngle = 0 ∧
      ¬ ((carOnSeam cv : Car ℝ).lastAngle > normAngle realMath (START_ANGLE realMath) + 0.01) ∧
      (gameLoop realMath cv 0 (clientOf (carOnSeam cv))).1.myCar.map Car.laps
        = some ((carOnSeam cv : Car ℝ).laps + 1)) := by
  have hlaps : ∀ (keys : Keys) (b : ℝ) (car : Car ℝ),
      (driveCar realMath cv keys b car).1.laps =
        if lapCrossed realMath (prevAngle realMath (applyControls keys b car).1 car.lastAngle)
            (driveCar realMath cv keys b car).1.lastAngle
        then car.laps + 1 else car.laps := by
    intro keys b car
    have e := congrArg LapState.laps (driveCar_detectLap cv keys b car)
    simp only at e
    rw [e, detectLap_laps]
  refine ⟨?_, ?_, rfl, ?_, ?_⟩
  · intro keys b car h
    have hp : prevAngle realMath (applyControls keys b car).1 car.lastAngle
        = normAngle realMath car.lastAngle := by
      unfold prevAngle
      rw [if_pos h]
    exact ⟨hp, by rw [hlaps, hp]⟩
  · intro keys b car h
    have hp : prevAngle realMath (applyControls keys b car).1 car.lastAngle
        = normAngle realMath (applyControls keys b car).1 := by
      unfold prevAngle
      rw [if_neg (not_not.mpr h)]
    exact ⟨hp, by rw [hlaps, hp]⟩
  · rw [normAngle_start]
    have hpi := Real.pi_pos
    show ¬ ((0 : ℝ) > 3 * Real.pi / 2 + 0.01)
    intro h
    linarith
  · rw [gameLoop_myCar cv 0 (clientOf (carOnSeam cv)) (carOnSeam cv) rfl]
    show Option.map Car.laps (some (driveCar realMath cv noKeys 0 (carOnSeam cv)).1) = _
    rw [driveCar_carOnSeam]
    rfl

/-- Claim C20, for `carBeforeSeam`, whose stored sample is not `0`, and for
`carOnSeam`, whose stored sample is `0`. -/
theorem prev_sample_falls_back_to_heading_witness :
    ((carBeforeSeam realMath ⟨800, 600⟩).lastAngle ≠ 0 ∧
      prevAngle realMath (applyControls noKeys 0 (carBeforeSeam realMath ⟨800, 600⟩)).1
        (carBeforeSeam realMath ⟨800, 600⟩).lastAngle
        = normAngle realMath (carBeforeSeam realMath ⟨800, 600⟩).lastAngle) ∧
    ((carOnSeam ⟨800, 600⟩ : Car ℝ).lastAngle = 0 ∧
      prevAngle realMath (applyControls noKeys 0 (carOnSeam ⟨800, 600⟩ : Car ℝ)).1
        (carOnSeam ⟨800, 600⟩ : Car ℝ).lastAngle
        = normAngle realMath (applyControls noKeys 0 (carOnSeam ⟨800, 600⟩ : Car ℝ)).1) :=
  have h : (carBeforeSeam realMath ⟨800, 600⟩).lastAngle ≠ 0 := by
    have hpi := Real.pi_pos
    have := sample_before_seam.2.1
    intro h0
    have e : (carBeforeSeam realMath ⟨800, 600⟩).lastAngle
        = normAngle realMath (realMath.atan2 (-1) 200) := rfl
    rw [e] at h0
    rw [h0] at this
    linarith
  ⟨⟨h, ((prev_sample_falls_back_to_heading ⟨800, 600⟩).1 noKeys 0 _ h).1⟩,
   ⟨rfl, ((prev_sample_falls_back_to_heading ⟨800, 600⟩).2.1 noKeys 0 _ rfl).1⟩⟩

end RaceGame
